import Mathlib

set_option autoImplicit false

/-!
Verification development for the CivIdle per-tick simulation engine
(`src/scripts/logic/Update.ts`).

The engine is shallowly embedded: JS numbers are modelled as exact
rationals (`ℚ`), JS objects whose key-insertion order matters are
modelled as association lists, JS `Infinity` transport capacity is
modelled as `Option ℚ` with `none` standing for the unlimited sentinel,
and the external collaborators imported by `Update.ts` (static
configuration tables, capacity/IO calculators, grid geometry, the seeded
shuffle) are parameters collected in a `Ctx` record, as §6 of the design
document prescribes.
-/

namespace CivIdle

/-- Resource kinds (`Resource` in `ResourceDefinitions`), identified by index. -/
abbrev Res := Nat

/-- Building kinds (`Building` in `BuildingDefinitions`), identified by index. -/
abbrev BKind := Nat

/-- Tile coordinates (`xy` strings), identified by index. -/
abbrev XY := Nat

/-- The generic labor pool key, the resource literal `"Worker"`. -/
def Worker : Res := 0

/-- The power pool key, the resource literal `"Power"`. -/
def Power : Res := 1

/-- The science resource literal `"Science"` (routed to the headquarters). -/
def ScienceRes : Res := 2

/-- A resource ledger: a JS object mapping resource kind to amount, with
key-insertion order preserved (JS object semantics). -/
abbrev Ledger := List (Res × ℚ)

namespace Ledger

/-- Amount stored under a key, `obj[res] ?? 0`. -/
def amt (m : Ledger) (r : Res) : ℚ :=
  match m.find? (fun p => p.1 == r) with
  | some p => p.2
  | none => 0

/-- Write `obj[res] = v`: update in place if the key exists, else append
(JS objects keep insertion order). -/
def setAmt : Ledger → Res → ℚ → Ledger
  | [], r, v => [(r, v)]
  | p :: rest, r, v => if p.1 == r then (r, v) :: rest else p :: setAmt rest r v

/-- The helper `safeAdd(obj, res, v)`: `obj[res] = (obj[res] ?? 0) + v`. -/
def sadd (m : Ledger) (r : Res) (v : ℚ) : Ledger :=
  m.setAmt r (m.amt r + v)

/-- The helper `deductResources(obj, costs)`: subtract every cost entry. -/
def deduct (m : Ledger) (costs : Ledger) : Ledger :=
  costs.foldl (fun acc p => acc.sadd p.1 (-p.2)) m

/-- The helper `addResources(obj, amounts)`: add every entry. -/
def addAll (m : Ledger) (amounts : Ledger) : Ledger :=
  amounts.foldl (fun acc p => acc.sadd p.1 p.2) m

end Ledger

/-- Building lifecycle status (`IBuildingData.status`). -/
inductive BStatus where
  | building
  | upgrading
  | completed
  | paused
deriving DecidableEq, Repr

/-- A building (`IBuildingData` with the duck-typed variant fields of
`IMarketBuildingData`, `IResourceImportBuildingData` and
`IWarehouseBuildingData` flattened in; the variant fields are `Option`al
or flagged exactly where the source probes for field presence). -/
structure Building where
  type : BKind
  status : BStatus
  level : Nat
  desiredLevel : Nat
  capacity : ℚ
  priority : Int
  stockpileCapacity : ℚ
  electrification : Nat
  resources : Ledger
  /-- `"resourceImports" in building`: per-resource import caps when present. -/
  resourceImports : Option Ledger
  /-- `"warehouseOptions" in building` with the `Autopilot` flag set. -/
  warehouseAutopilot : Bool
  /-- Market variant: the active sell-resource selection (a key set). -/
  sellResources : List Res
  /-- Market variant: the current sell-to-buy pairing map. -/
  availableResources : List (Res × Res)
  /-- Market variant: the `MarketOptions.ClearAfterUpdate` flag. -/
  marketClearAfterUpdate : Bool
deriving DecidableEq, Repr

/-- An in-flight shipment (`ITransportationData`). -/
structure Transport where
  resource : Res
  amount : ℚ
  fuel : Res
  fuelAmount : ℚ
  currentFuelAmount : ℚ
  fromXy : XY
  toXy : XY
  fromPos : ℚ × ℚ
  toPos : ℚ × ℚ
  ticksSpent : Nat
  ticksRequired : Nat
  hasEnoughFuel : Bool
deriving DecidableEq, Repr

/-- The enumerated "not producing" reasons recorded per tile per tick. -/
inductive Reason where
  | NotEnoughWorkers
  | NotEnoughResources
  | StorageFull
  | TurnedOff
  | NotOnDeposit
  | NoActiveTransports
deriving DecidableEq, Repr

/-- One tick-aggregate snapshot buffer (`Tick.current` / `Tick.next` of
`TickLogic`), restricted to the fields the embedded logic reads or
writes. -/
structure TickData where
  /-- `workersAvailable`: the pool credited by last tick's non-transportable outputs. -/
  workersAvailable : Ledger
  /-- Sum of the `globalMultipliers.transportCapacity` contributions. -/
  transportCapacityBonus : ℚ
  /-- `specialBuildings.MausoleumAtHalicarnassus`, when registered. -/
  mahXy : Option XY
  /-- `resourcesByGrid`: resource kind to the tiles currently holding it. -/
  resourcesByGrid : Res → List XY
  /-- `notProducingReasons`. -/
  reasons : XY → Option Reason
  /-- `electrified` levels applied this tick. -/
  electrified : XY → Option Nat
  /-- Accumulated world `totalValue`. -/
  totalValue : ℚ
  /-- `happiness` computed at the end of the tick. -/
  happiness : ℚ

/-- The empty write buffer `EmptyTickData()`. -/
def TickData.empty : TickData :=
  ⟨[], 0, none, fun _ => [], fun _ => none, fun _ => none, 0, 0⟩

/-- The root aggregate: `GameState` together with the double-buffered tick
data and the tick-scoped `workersUsed` counters. -/
structure World where
  tiles : XY → Option Building
  explored : XY → Bool
  deposit : XY → Res → Bool
  /-- Key-insertion order of `gs.tiles` (JS object key order). -/
  tileKeys : List XY
  /-- Per-destination transportation queues, in key-insertion order. -/
  transportation : List (XY × List Transport)
  /-- Tick-scoped `workersUsed` counters (consumed amounts per pool kind). -/
  used : Res → ℚ
  /-- The frozen snapshot of the previous tick (`Tick.current`). -/
  cur : TickData
  /-- The write buffer of this tick (`Tick.next`). -/
  nxt : TickData
  tick : Nat
  lastPriceUpdated : Nat

namespace World

/-- Modelled from the spec: `getAvailableWorkers(res)` of `BuildingLogic`
(not under `src/`) exposes the shared depletable pool — the amount made
available by the previous tick minus the amount already reserved this
tick. -/
def available (w : World) (r : Res) : ℚ :=
  w.cur.workersAvailable.amt r - w.used r

/-- Modelled from the spec: `useWorkers(res, amount, xy)` of
`BuildingLogic` (not under `src/`) reserves `amount` units from the
shared pool; reservations are synchronous with no rollback, so the
counter is bumped unconditionally and every availability check lives at
the call site. -/
def useWorkers (w : World) (r : Res) (a : ℚ) : World :=
  { w with used := fun x => if x = r then w.used x + a else w.used x }

/-- Replace the building stored at a tile. -/
def setTile (w : World) (xy : XY) (b : Building) : World :=
  { w with tiles := fun y => if y = xy then some b else w.tiles y }

/-- `Tick.next.notProducingReasons[xy] = reason`. -/
def setReason (w : World) (xy : XY) (r : Reason) : World :=
  { w with nxt := { w.nxt with reasons := fun y => if y = xy then some r else w.nxt.reasons y } }

/-- `delete Tick.next.notProducingReasons[xy]`. -/
def clearReason (w : World) (xy : XY) : World :=
  { w with nxt := { w.nxt with reasons := fun y => if y = xy then none else w.nxt.reasons y } }

end World

/-- Lookup of a destination's queue in the transportation map. -/
def queueOf (q : List (XY × List Transport)) (xy : XY) : List Transport :=
  match q.find? (fun p => p.1 == xy) with
  | some p => p.2
  | none => []

/-- The helper `safePush(gs.transportation, toXy, t)`: append to the
existing queue in place, or append a fresh keyed queue. -/
def pushQueue : List (XY × List Transport) → XY → Transport → List (XY × List Transport)
  | [], xy, t => [(xy, [t])]
  | p :: rest, xy, t =>
      if p.1 == xy then (p.1, p.2 ++ [t]) :: rest else p :: pushQueue rest xy t

/-- The queue of shipments bound for a destination tile. -/
def World.queueAt (w : World) (xy : XY) : List Transport :=
  queueOf w.transportation xy

/-- `Vector2.lerp` componentwise linear interpolation. -/
def lerp (a b : ℚ × ℚ) (t : ℚ) : ℚ × ℚ :=
  (a.1 + (b.1 - a.1) * t, a.2 + (b.2 - a.2) * t)

/-- Squared distance between two positions (`subtractSelf` then `lengthSqr`). -/
def lengthSqr (a b : ℚ × ℚ) : ℚ :=
  (a.1 - b.1) ^ 2 + (a.2 - b.2) ^ 2

/-- `Math.ceil` on an exact rational, as a rational. -/
def ceilq (q : ℚ) : ℚ := ((⌈q⌉ : ℤ) : ℚ)

/-- Division of an amount by a transport capacity followed by `Math.ceil`,
where `none` is the `Infinity` sentinel of the adjacency upgrade
(dividing a finite amount by `Infinity` gives `0`). -/
def ceilDivCap (a : ℚ) : Option ℚ → ℚ
  | none => 0
  | some c => ceilq (a / c)

/-- Modelled from the spec: `buildingDefaults` entries apply configured
default field values — production/behavior settings, not lifecycle
state — so the patch covers exactly the non-lifecycle scalar options. -/
structure BuildingDefaults where
  capacity : Option ℚ
  priority : Option Int
  stockpileCapacity : Option ℚ
  electrification : Option Nat
  marketClearAfterUpdate : Option Bool
  warehouseAutopilot : Option Bool
deriving DecidableEq, Repr

/-- `Object.assign(building, defaults)` for a defaults patch. -/
def applyDefaults (b : Building) : Option BuildingDefaults → Building
  | none => b
  | some d =>
      { b with
        capacity := d.capacity.getD b.capacity
        priority := d.priority.getD b.priority
        stockpileCapacity := d.stockpileCapacity.getD b.stockpileCapacity
        electrification := d.electrification.getD b.electrification
        marketClearAfterUpdate := d.marketClearAfterUpdate.getD b.marketClearAfterUpdate
        warehouseAutopilot := d.warehouseAutopilot.getD b.warehouseAutopilot }

/-- External collaborators of the tick engine (§6): static configuration
lookups, capacity/IO calculators, grid geometry, the deterministic seeded
shuffle, and feature flags. All are read-only during a tick. -/
structure Ctx where
  /-- `isTransportable(res)` / `canStore` flag of `Config.Resource`. -/
  canStore : Res → Bool
  canPrice : Res → Bool
  /-- `Config.ResourcePrice[res] ?? 0`. -/
  resourcePrice : Res → ℚ
  /-- `Config.BuildingTier[type] ?? 0`. -/
  buildingTier : BKind → Int
  isNaturalWonderB : BKind → Bool
  isSpecialB : BKind → Bool
  /-- Whether the kind is the `MausoleumAtHalicarnassus` special building. -/
  isMah : BKind → Bool
  marketKind : BKind
  warehouseKind : BKind
  caravansaryKind : BKind
  /-- `Config.Building[type].deposit` keys. -/
  requiredDeposits : BKind → List Res
  /-- Presence of a resource in the static `Config.Building[type].output` table. -/
  staticOutput : BKind → Res → Bool
  /-- `getBuildingValue(building)`. -/
  buildingValue : Building → ℚ
  /-- `getBuildingCost(building)` for the current target level. -/
  buildingCost : Building → Ledger
  /-- `getBuilderCapacity(building, xy, gs).total`. -/
  builderCapacity : Building → XY → ℚ
  /-- `grid.distance` between two tiles. -/
  dist : XY → XY → ℚ
  /-- `grid.xyToPosition`. -/
  posOf : XY → ℚ × ℚ
  /-- Ticks required for a new shipment (distance/speed rules). -/
  ticksFor : XY → XY → Nat
  /-- `getStorageFor(xy, gs)` as `(total, used)`. -/
  storageFor : World → XY → ℚ × ℚ
  /-- `getStorageRequired(resources)`. -/
  storageRequired : Ledger → ℚ
  /-- `getWorkersFor(xy, { exclude: { Worker: 1 } }, gs).output`. -/
  workersFor : World → XY → ℚ
  /-- `getWorkersFor(xy, { include: <non-transportable outputs minus Worker> }, gs).output`. -/
  workersForNT : World → XY → Ledger → ℚ
  /-- `totalMultiplierFor(xy, "worker", 1, gs)`. -/
  workerMult : World → XY → ℚ
  /-- `totalMultiplierFor(xy, "output", 1, gs)`. -/
  outputMult : World → XY → ℚ
  /-- `getBuildingIO(xy, "input", Multiplier | Capacity, gs)`. -/
  buildingInput : World → XY → Ledger
  /-- `getBuildingIO(xy, "output", Multiplier | Capacity, gs)`. -/
  buildingOutput : World → XY → Ledger
  /-- `getStockpileMax(building)`. -/
  stockpileMax : Building → ℚ
  /-- `getWarehouseIdleCapacity(warehouse)`. -/
  warehouseIdleCapacity : Building → ℚ
  /-- `getStorageFullBuildings(gs)` as tile coordinates. -/
  storageFullBuildings : World → List XY
  /-- `getMarketPrice(res, xy, gs)`. -/
  marketPrice : Res → XY → ℚ
  /-- `getPowerRequired(electrification)`. -/
  powerRequired : Nat → ℚ
  canBeElectrified : BKind → Bool
  featElectricity : Bool
  featWarehouseUpgrade : Bool
  hasBanking : Bool
  /-- `unlockedResources(gs)` in key order. -/
  unlocked : List Res
  /-- `shuffle(keys, srand(seed))`: the deterministic seeded permutation. -/
  shuffle : Nat → List Res → List Res
  /-- The seed `priceId + xy` (string concatenation, injective pairing). -/
  seedOf : Nat → XY → Nat
  /-- `getGameOptions().buildingDefaults[type]`, absent when `undefined`. -/
  defaultsOf : BKind → Option BuildingDefaults
  /-- The headquarters tile (`Singleton().buildings.Headquarter`). -/
  hqXy : XY
  /-- `getScienceFromWorkers(gs).scienceFromWorkers`. -/
  scienceOf : World → ℚ
  /-- `calculateHappiness(gs)`. -/
  happinessOf : World → ℚ
  /-- The technology and great-person multiplier phase: pure accumulation
  into the write buffer (§4.2), modelled as a buffer transformer. -/
  multPhase : World → TickData → TickData

/-!
## Transportation advancement (`tickTransportation`, Update.ts:193-220)
-/

/-- The fuel need recomputed each tick: `currentFuelAmount` is reset to
the nominal `fuelAmount` and zeroed when the Mausoleum At Halicarnassus
is active and the interpolated position falls within the squared-distance
threshold `200 * 200` (Update.ts:201-211). -/
def fuelNeed (mah : Option (ℚ × ℚ)) (t : Transport) : ℚ :=
  match mah with
  | none => t.fuelAmount
  | some m =>
      let pos := lerp t.fromPos t.toPos ((t.ticksSpent : ℚ) / (t.ticksRequired : ℚ))
      if lengthSqr pos m ≤ 200 * 200 then 0 else t.fuelAmount

/-- One in-flight record's per-tick advance (`tickTransportation`,
Update.ts:193-220): a record whose fuel kind is transportable advances
unconditionally; otherwise the (possibly zeroed) fuel need is charged
against the pool, and on a shortfall the record stalls with
`hasEnoughFuel` cleared. -/
def tickTransportation (ctx : Ctx) (mah : Option (ℚ × ℚ)) (t : Transport) (w : World) :
    Transport × World :=
  if ctx.canStore t.fuel then
    ({ t with ticksSpent := t.ticksSpent + 1, hasEnoughFuel := true }, w)
  else
    let need := fuelNeed mah t
    if w.available t.fuel ≥ need then
      ({ t with currentFuelAmount := need, ticksSpent := t.ticksSpent + 1, hasEnoughFuel := true },
        w.useWorkers t.fuel need)
    else
      ({ t with currentFuelAmount := need, hasEnoughFuel := false }, w)

/-!
### Claim C2

The claim states: a record whose fuel kind is non-transportable advances
unconditionally, while every other record is labor-gated. The source has
the polarity the other way around: the `isTransportable(transport.fuel)`
branch (Update.ts:195-199) is the unconditional one, and the
non-transportable branch (Update.ts:201-219) is the labor-gated one.
-/

/-- A concrete stalled shipment: non-transportable fuel, need 5, pool 0. -/
def c2Transport : Transport :=
  ⟨3, 10, Worker, 5, 5, 1, 2, (0, 0), (10, 0), 0, 4, true⟩

/-- A world with an empty labor pool. -/
def emptyWorld : World :=
  { tiles := fun _ => none
    explored := fun _ => false
    deposit := fun _ _ => false
    tileKeys := []
    transportation := []
    used := fun _ => 0
    cur := TickData.empty
    nxt := TickData.empty
    tick := 0
    lastPriceUpdated := 0 }

/-- A context in which resource 3 is transportable (storable) and the
labor kinds are not. -/
def baseCtx : Ctx :=
  { canStore := fun r => r == 3
    canPrice := fun _ => false
    resourcePrice := fun _ => 0
    buildingTier := fun _ => 0
    isNaturalWonderB := fun _ => false
    isSpecialB := fun _ => false
    isMah := fun _ => false
    marketKind := 100
    warehouseKind := 101
    caravansaryKind := 102
    requiredDeposits := fun _ => []
    staticOutput := fun _ _ => false
    buildingValue := fun _ => 0
    buildingCost := fun _ => []
    builderCapacity := fun _ _ => 1
    dist := fun _ _ => 2
    posOf := fun _ => (0, 0)
    ticksFor := fun _ _ => 1
    storageFor := fun _ _ => (0, 0)
    storageRequired := fun _ => 0
    workersFor := fun _ _ => 0
    workersForNT := fun _ _ _ => 0
    workerMult := fun _ _ => 1
    outputMult := fun _ _ => 1
    buildingInput := fun _ _ => []
    buildingOutput := fun _ _ => []
    stockpileMax := fun _ => 1
    warehouseIdleCapacity := fun _ => 0
    storageFullBuildings := fun _ => []
    marketPrice := fun _ _ => 1
    powerRequired := fun _ => 0
    canBeElectrified := fun _ => false
    featElectricity := false
    featWarehouseUpgrade := false
    hasBanking := false
    unlocked := []
    shuffle := fun _ l => l
    seedOf := fun p x => p + x
    defaultsOf := fun _ => none
    hqXy := 99
    scienceOf := fun _ => 0
    happinessOf := fun _ => 0
    multPhase := fun _ d => d }

/-- C2, counterexample: the claim as stated is false on the code. For a
record whose fuel kind is non-transportable the advance is not
unconditional: with fuel need 5 and an empty labor pool the record
stalls — `ticksSpent` stays put and `hasEnoughFuel` is cleared. -/
theorem c2_counterexample :
    baseCtx.canStore c2Transport.fuel = false ∧
    (tickTransportation baseCtx none c2Transport emptyWorld).1.ticksSpent = c2Transport.ticksSpent ∧
    (tickTransportation baseCtx none c2Transport emptyWorld).1.hasEnoughFuel = false := by
  refine ⟨rfl, ?_, ?_⟩ <;>
    norm_num [tickTransportation, baseCtx, c2Transport, emptyWorld, fuelNeed, World.available,
      Ledger.amt, TickData.empty, Worker]

/-- C2, amended: the polarity is the reverse of the claim. A record whose
fuel kind is transportable has `ticksSpent` incremented unconditionally
(no labor is consumed and it cannot stall); for every other record the
pool must cover the (possibly zeroed) fuel need, which is then consumed,
or the record stalls with `hasEnoughFuel` cleared and `ticksSpent`
unchanged. -/
theorem c2_amended (ctx : Ctx) (mah : Option (ℚ × ℚ)) (t : Transport) (w : World) :
    (ctx.canStore t.fuel = true →
      tickTransportation ctx mah t w =
        ({ t with ticksSpent := t.ticksSpent + 1, hasEnoughFuel := true }, w)) ∧
    (ctx.canStore t.fuel = false →
      (w.available t.fuel ≥ fuelNeed mah t →
        tickTransportation ctx mah t w =
          ({ t with
              currentFuelAmount := fuelNeed mah t
              ticksSpent := t.ticksSpent + 1
              hasEnoughFuel := true }, w.useWorkers t.fuel (fuelNeed mah t))) ∧
      (w.available t.fuel < fuelNeed mah t →
        tickTransportation ctx mah t w =
          ({ t with currentFuelAmount := fuelNeed mah t, hasEnoughFuel := false }, w))) := by
  refine ⟨fun h => ?_, fun h => ⟨fun hge => ?_, fun hlt => ?_⟩⟩
  · simp [tickTransportation, h]
  · simp [tickTransportation, h, hge]
  · simp [tickTransportation, h, not_le.mpr hlt]

/-- C2, witness: the amended theorem applied at concrete inputs — a
transportable-fuel record advances unconditionally, and the stalled
record of the counterexample is exactly the stall case. -/
theorem c2_witness :
    tickTransportation baseCtx none { c2Transport with fuel := 3 } emptyWorld =
      ({ c2Transport with
          fuel := 3
          ticksSpent := c2Transport.ticksSpent + 1
          hasEnoughFuel := true }, emptyWorld) ∧
    tickTransportation baseCtx none c2Transport emptyWorld =
      ({ c2Transport with
          currentFuelAmount := fuelNeed none c2Transport
          hasEnoughFuel := false }, emptyWorld) :=
  ⟨(c2_amended baseCtx none { c2Transport with fuel := 3 } emptyWorld).1 (by decide),
    ((c2_amended baseCtx none c2Transport emptyWorld).2 (by decide)).2
      (by norm_num [World.available, Ledger.amt, emptyWorld, c2Transport, fuelNeed, TickData.empty])⟩

/-!
## Transportation queue processing (`tickTransportations`, Update.ts:172-191)
-/

/-- The `queue.filter(...)` body of `tickTransportations`
(Update.ts:177-189), with its side effects threaded left to right: each
record is advanced, and a record whose `ticksSpent` reached
`ticksRequired` is dropped from the queue after crediting its amount to
the destination building's ledger — when that building exists. -/
def stepQueue (ctx : Ctx) (mah : Option (ℚ × ℚ)) :
    List Transport → World → List Transport × World
  | [], w => ([], w)
  | t :: rest, w =>
    let p := tickTransportation ctx mah t w
    if p.1.ticksSpent ≥ p.1.ticksRequired then
      let w2 :=
        match (p.2).tiles p.1.toXy with
        | some b =>
            (p.2).setTile p.1.toXy
              { b with resources := b.resources.sadd p.1.resource p.1.amount }
        | none => p.2
      stepQueue ctx mah rest w2
    else
      let q := stepQueue ctx mah rest p.2
      (p.1 :: q.1, q.2)

/-- `tickTransportations(gs)` (Update.ts:172-191): resolve the Mausoleum
position from the frozen snapshot, then filter every destination queue in
key order, writing the filtered queue back. -/
def tickTransportationsAll (ctx : Ctx) (w0 : World) : World :=
  let mah := w0.cur.mahXy.map ctx.posOf
  let z := w0.transportation.foldl
      (fun (acc : List (XY × List Transport) × World) p =>
        let r := stepQueue ctx mah p.2 acc.2
        (acc.1 ++ [(p.1, r.1)], r.2))
      ([], w0)
  { z.2 with transportation := z.1 }

/-- Advancing a single record never touches the tiles and never changes
the record's identity fields (destination, cargo, required ticks). -/
theorem tickTransportation_frame (ctx : Ctx) (mah : Option (ℚ × ℚ)) (t : Transport) (w : World) :
    (tickTransportation ctx mah t w).1.toXy = t.toXy ∧
    (tickTransportation ctx mah t w).1.ticksRequired = t.ticksRequired ∧
    (tickTransportation ctx mah t w).1.resource = t.resource ∧
    (tickTransportation ctx mah t w).1.amount = t.amount ∧
    (tickTransportation ctx mah t w).2.tiles = w.tiles := by
  simp only [tickTransportation]
  split_ifs <;> simp [World.useWorkers]

/-!
### Claim C10

When an arriving record's destination tile holds no building, the record
is dropped from the queue and its amount is credited to no ledger
(Update.ts:180-186: the `safeAdd` is guarded by `if (building)` and the
filter returns `false` either way).
-/

/-- C10: an in-flight record that reaches `ticksSpent ≥ ticksRequired`
while the destination tile's building is null is removed from the queue
and its amount is credited to no ledger — processing continues on the
rest of the queue from a world whose tiles are untouched, so the shipped
resource is silently destroyed. -/
theorem c10_lost_delivery (ctx : Ctx) (mah : Option (ℚ × ℚ)) (t : Transport)
    (rest : List Transport) (w : World)
    (harr : (tickTransportation ctx mah t w).1.ticksSpent ≥ t.ticksRequired)
    (hnone : w.tiles t.toXy = none) :
    stepQueue ctx mah (t :: rest) w =
      stepQueue ctx mah rest (tickTransportation ctx mah t w).2 ∧
    (tickTransportation ctx mah t w).2.tiles = w.tiles := by
  obtain ⟨h1, h2, -, -, h5⟩ := tickTransportation_frame ctx mah t w
  refine ⟨?_, h5⟩
  rw [stepQueue, if_pos (h2 ▸ harr)]
  rw [h5, h1, hnone]

/-- A shipment one tick from arrival, bound for a tile with no building. -/
def c10T : Transport := ⟨3, 10, 3, 0, 0, 1, 2, (0, 0), (10, 0), 0, 1, true⟩

/-- C10, witness: the theorem applied to the concrete doomed shipment in
the empty world. -/
theorem c10_witness :
    stepQueue baseCtx none [c10T] emptyWorld =
      stepQueue baseCtx none [] (tickTransportation baseCtx none c10T emptyWorld).2 ∧
    (tickTransportation baseCtx none c10T emptyWorld).2.tiles = emptyWorld.tiles :=
  c10_lost_delivery baseCtx none c10T [] emptyWorld (by decide) rfl

/-!
## Tile processing order (`tickTiles`, Update.ts:226-246)
-/

/-- `isBuildingOrUpgrading` (Update.ts:222-224). -/
def isBuildingOrUpgrading (b : Building) : Bool :=
  b.status == BStatus.building || b.status == BStatus.upgrading

/-- The three-way sort comparator of `tickTiles` (Update.ts:227-241):
construction/upgrade first, then descending `priority`, then the static
`Config.BuildingTier[type] ?? 0` rank ascending. -/
def tileCmp (ctx : Ctx) (a b : Building) : Int :=
  if isBuildingOrUpgrading a && !isBuildingOrUpgrading b then -1
  else if isBuildingOrUpgrading b && !isBuildingOrUpgrading a then 1
  else if b.priority - a.priority ≠ 0 then b.priority - a.priority
  else ctx.buildingTier a.type - ctx.buildingTier b.type

/-- The boolean "sorts no later than" relation induced by the comparator. -/
def tileLe (ctx : Ctx) (p q : XY × Building) : Bool :=
  decide (tileCmp ctx p.2 q.2 ≤ 0)

/-- Tiles holding a building, in key-insertion order
(`keysOf(getXyBuildings(gs))`). -/
def buildingTiles (w : World) : List (XY × Building) :=
  w.tileKeys.filterMap (fun xy => (w.tiles xy).map (fun b => (xy, b)))

/-- The processing order of `tickTiles` (Update.ts:226-246): the building
tiles sorted by the comparator. `Array.prototype.sort` is a stable sort,
modelled by `List.mergeSort`. -/
def tickTilesOrder (ctx : Ctx) (w : World) : List (XY × Building) :=
  (buildingTiles w).mergeSort (tileLe ctx)

/-- Characterization of the comparator: it sorts `a` no later than `b`
iff `a` is under construction/upgrade and `b` is not, or both flags agree
and `(descending priority, ascending tier)` orders `a` first or ties. -/
theorem tileCmp_le_iff (ctx : Ctx) (a b : Building) :
    tileCmp ctx a b ≤ 0 ↔
      (isBuildingOrUpgrading a = true ∧ isBuildingOrUpgrading b = false) ∨
      (isBuildingOrUpgrading a = isBuildingOrUpgrading b ∧
        (b.priority < a.priority ∨
          (b.priority = a.priority ∧
            ctx.buildingTier a.type ≤ ctx.buildingTier b.type))) := by
  cases hA : isBuildingOrUpgrading a <;> cases hB : isBuildingOrUpgrading b <;>
    simp [tileCmp, hA, hB] <;> split_ifs <;> omega

/-- The comparator relation is transitive. -/
theorem tileLe_trans (ctx : Ctx) (p q r : XY × Building)
    (h1 : tileLe ctx p q) (h2 : tileLe ctx q r) : tileLe ctx p r := by
  simp only [tileLe, decide_eq_true_eq, tileCmp_le_iff] at h1 h2 ⊢
  rcases h1 with ⟨ha, hb⟩ | ⟨hab, h1⟩ <;> rcases h2 with ⟨hb2, hc⟩ | ⟨hbc, h2⟩ <;>
    simp_all <;> omega

/-- The comparator relation is total. -/
theorem tileLe_total (ctx : Ctx) (p q : XY × Building) :
    tileLe ctx p q || tileLe ctx q p := by
  simp only [tileLe, Bool.or_eq_true, decide_eq_true_eq, tileCmp_le_iff]
  cases hA : isBuildingOrUpgrading p.2 <;> cases hB : isBuildingOrUpgrading q.2 <;>
    simp_all <;> omega

/-!
### Claim C4
-/

/-- C4: `tickTiles` processes all tiles holding a building in the claimed
total order — it visits a permutation of the building tiles in which
every tile whose building is under construction or upgrade precedes every
tile whose building is not, and among the latter higher `priority` comes
first with remaining ties broken by the ascending static building-tier
rank. -/
theorem c4_tile_order (ctx : Ctx) (w : World) :
    (tickTilesOrder ctx w).Pairwise (fun p q =>
      (isBuildingOrUpgrading q.2 = true → isBuildingOrUpgrading p.2 = true) ∧
      (isBuildingOrUpgrading p.2 = false → isBuildingOrUpgrading q.2 = false →
        q.2.priority < p.2.priority ∨
          (q.2.priority = p.2.priority ∧
            ctx.buildingTier p.2.type ≤ ctx.buildingTier q.2.type))) ∧
    (tickTilesOrder ctx w).Perm (buildingTiles w) := by
  constructor
  · have hs := List.sorted_mergeSort (tileLe_trans ctx) (tileLe_total ctx) (buildingTiles w)
    refine hs.imp (fun hle => ?_)
    rw [tileLe, decide_eq_true_eq, tileCmp_le_iff] at hle
    constructor
    · intro hq
      rcases hle with ⟨ha, hb⟩ | ⟨hab, -⟩
      · exact ha
      · exact hab.trans hq
    · intro hp hq
      rcases hle with ⟨ha, -⟩ | ⟨-, hlex⟩
      · exact absurd ha (by simp [hp])
      · exact hlex
  · exact List.mergeSort_perm (buildingTiles w) (tileLe ctx)

/-!
## The transportation router (`transportResource`, Update.ts:566-655)
-/

/-- Whether a tile currently holds a building of the given kind
(the optional chain `gs.tiles[xy].building?.type === kind`). -/
def typeAt (w : World) (xy : XY) (k : BKind) : Bool :=
  match w.tiles xy with
  | some b => b.type == k
  | none => false

/-- The per-candidate transport capacity (Update.ts:605-623): the worker
capacity plus all global transport-capacity multipliers, promoted to the
`Infinity` sentinel (`none`) when the warehouse-upgrade feature is
unlocked, either endpoint is a warehouse, and the grid distance between
the candidate and the destination is at most 1. -/
def transportCapacityFor (ctx : Ctx) (w : World) (workerCapacity : ℚ)
    (fromXy targetXy : XY) : Option ℚ :=
  if ctx.featWarehouseUpgrade
      ∧ (typeAt w fromXy ctx.warehouseKind ∨ typeAt w targetXy ctx.warehouseKind)
      ∧ ctx.dist fromXy targetXy ≤ 1 then
    none
  else
    some (workerCapacity + w.cur.transportCapacityBonus)

/-- Modelled from the spec: `addTransportation` of `BuildingLogic` (not
under `src/`) — committing a transport creates a Transportation record in
the destination queue, with `ticksRequired` derived from distance/speed
rules, and reserves the computed fuel as the router is labor-gated
(reservations are synchronous with no rollback). -/
def addTransportation (ctx : Ctx) (res : Res) (amount : ℚ) (fuel : Res) (fuelAmount : ℚ)
    (fromXy toXy : XY) (w : World) : World :=
  let t : Transport :=
    ⟨res, amount, fuel, fuelAmount, fuelAmount, fromXy, toXy, ctx.posOf fromXy, ctx.posOf toXy,
      0, ctx.ticksFor fromXy toXy, true⟩
  let w2 := w.useWorkers fuel fuelAmount
  { w2 with transportation := pushQueue w2.transportation toXy t }

/-- Result of one candidate iteration of the router loop: `done` models
the `return` statements, `next` models falling through to the next
candidate with the remaining need. -/
inductive RouteStep where
  | next (amountLeft : ℚ) (w : World)
  | done (w : World)

/-- One candidate iteration of the router loop (Update.ts:589-654):
skip missing buildings, the destination itself and empty candidates;
otherwise commit a full, partial (fuel-limited) or source-limited
shipment, debiting the source ledger immediately. -/
def transportStep (ctx : Ctx) (res : Res) (workerCapacity : ℚ) (targetXy fromXy : XY)
    (amountLeft : ℚ) (w : World) : RouteStep :=
  match w.tiles fromXy with
  | none => .next amountLeft w
  | some building =>
    if fromXy = targetXy then .next amountLeft w
    else if building.resources.amt res ≤ 0 then .next amountLeft w
    else
      let availableAmount := building.resources.amt res
      let cap := transportCapacityFor ctx w workerCapacity fromXy targetXy
      if availableAmount ≥ amountLeft then
        let fuelAmount := ceilDivCap amountLeft cap
        let fuelLeft := w.available Worker
        if fuelLeft ≥ fuelAmount then
          .done (addTransportation ctx res amountLeft Worker fuelAmount fromXy targetXy
            (w.setTile fromXy
              { building with resources := building.resources.sadd res (-amountLeft) }))
        else if fuelLeft > 0 then
          .done (addTransportation ctx res (amountLeft * fuelLeft / fuelAmount) Worker fuelLeft
            fromXy targetXy
            (w.setTile fromXy
              { building with
                  resources := building.resources.sadd res (-(amountLeft * fuelLeft / fuelAmount)) }))
        else .done w
      else
        let fuelAmount := ceilDivCap availableAmount cap
        let fuelLeft := w.available Worker
        if fuelLeft ≥ fuelAmount then
          .next (amountLeft - availableAmount)
            (addTransportation ctx res availableAmount Worker fuelAmount fromXy targetXy
              (w.setTile fromXy
                { building with resources := building.resources.sadd res (-availableAmount) }))
        else if fuelLeft > 0 then
          .done (addTransportation ctx res (availableAmount * fuelLeft / fuelAmount) Worker fuelLeft
            fromXy targetXy
            (w.setTile fromXy
              { building with
                  resources :=
                    building.resources.sadd res (-(availableAmount * fuelLeft / fuelAmount)) }))
        else .next amountLeft w

/-- The candidate loop of `transportResource` (Update.ts:589-654). -/
def transportLoop (ctx : Ctx) (res : Res) (workerCapacity : ℚ) (targetXy : XY) :
    List XY → ℚ → World → World
  | [], _, w => w
  | fromXy :: rest, amountLeft, w =>
    match transportStep ctx res workerCapacity targetXy fromXy amountLeft w with
    | .next a w2 => transportLoop ctx res workerCapacity targetXy rest a w2
    | .done w2 => w2

/-- `transportResource` (Update.ts:566-655): the labor-gated greedy
router — short-circuit when no generic labor is left, then walk the
frozen resource-location index sorted by ascending grid distance to the
destination. -/
def transportResource (ctx : Ctx) (res : Res) (amount workerCapacity : ℚ)
    (targetXy : XY) (w : World) : World :=
  if w.available Worker ≤ 0 then w
  else
    let sources := (w.cur.resourcesByGrid res).mergeSort
        (fun a b => decide (ctx.dist a targetXy ≤ ctx.dist b targetXy))
    transportLoop ctx res workerCapacity targetXy sources amount w

/-!
### Ledger, queue and pool bookkeeping lemmas
-/

/-- Writing a key then reading it back gives the written value. -/
theorem Ledger.amt_setAmt_self (m : Ledger) (r : Res) (v : ℚ) : (m.setAmt r v).amt r = v := by
  induction m with
  | nil => simp [Ledger.setAmt, Ledger.amt, List.find?]
  | cons p rest ih =>
    by_cases h : p.1 == r
    · simp [Ledger.setAmt, Ledger.amt, List.find?, h]
    · simpa [Ledger.setAmt, Ledger.amt, List.find?, h] using ih

/-- `safeAdd` adds to the stored amount. -/
theorem Ledger.amt_sadd_self (m : Ledger) (r : Res) (v : ℚ) :
    (m.sadd r v).amt r = m.amt r + v :=
  Ledger.amt_setAmt_self m r (m.amt r + v)

/-- Pushing a record appends it to its destination's queue. -/
theorem queueOf_push_self (q : List (XY × List Transport)) (xy : XY) (t : Transport) :
    queueOf (pushQueue q xy t) xy = queueOf q xy ++ [t] := by
  induction q with
  | nil => simp [pushQueue, queueOf, List.find?]
  | cons p rest ih =>
    by_cases h : p.1 == xy
    · simp [pushQueue, queueOf, List.find?, h]
    · simpa [pushQueue, queueOf, List.find?, h] using ih

/-- Reserving from one pool lowers exactly that pool's availability. -/
theorem World.available_useWorkers_self (w : World) (r : Res) (a : ℚ) :
    (w.useWorkers r a).available r = w.available r - a := by
  simp [World.useWorkers, World.available]
  ring

/-- Frame facts for `addTransportation`: tiles are untouched, the
destination queue gains exactly the new record, and the fuel pool drops
by the reserved fuel. -/
theorem addTransportation_frame (ctx : Ctx) (res : Res) (amount : ℚ) (fuel : Res)
    (fuelAmount : ℚ) (fromXy toXy : XY) (w : World) :
    (addTransportation ctx res amount fuel fuelAmount fromXy toXy w).tiles = w.tiles ∧
    (addTransportation ctx res amount fuel fuelAmount fromXy toXy w).queueAt toXy =
      w.queueAt toXy ++
        [⟨res, amount, fuel, fuelAmount, fuelAmount, fromXy, toXy, ctx.posOf fromXy,
          ctx.posOf toXy, 0, ctx.ticksFor fromXy toXy, true⟩] ∧
    (addTransportation ctx res amount fuel fuelAmount fromXy toXy w).available fuel =
      w.available fuel - fuelAmount := by
  refine ⟨rfl, ?_, ?_⟩
  · simp [addTransportation, World.queueAt, World.useWorkers, queueOf_push_self]
  · simpa [addTransportation] using World.available_useWorkers_self w fuel fuelAmount

/-!
### Claim C5
-/

/-- C5: in `transportResource`, when the available labor `fuelLeft` is
positive but below `fuelRequired = ceil(amount / transportCapacity)` at a
candidate that covers the remaining need, the committed shipment amount
and the source-ledger debit are exactly `amount * fuelLeft /
fuelRequired`, the shipment's fuel is all the remaining labor (draining
the pool to zero), and the router returns without visiting further
candidates. -/
theorem c5_partial_fulfillment (ctx : Ctx) (res : Res) (workerCapacity : ℚ)
    (targetXy fromXy : XY) (rest : List XY) (amountLeft : ℚ) (w : World) (building : Building)
    (hb : w.tiles fromXy = some building)
    (hne : fromXy ≠ targetXy)
    (hpos : 0 < building.resources.amt res)
    (hcover : building.resources.amt res ≥ amountLeft)
    (hfpos : 0 < w.available Worker)
    (hlack : w.available Worker <
      ceilDivCap amountLeft (transportCapacityFor ctx w workerCapacity fromXy targetXy)) :
    (∀ rest2, transportLoop ctx res workerCapacity targetXy (fromXy :: rest) amountLeft w =
        transportLoop ctx res workerCapacity targetXy (fromXy :: rest2) amountLeft w) ∧
    ((transportLoop ctx res workerCapacity targetXy (fromXy :: rest) amountLeft w).tiles
        fromXy).elim 0 (fun b => b.resources.amt res) =
      building.resources.amt res -
        amountLeft * w.available Worker /
          ceilDivCap amountLeft (transportCapacityFor ctx w workerCapacity fromXy targetXy) ∧
    (transportLoop ctx res workerCapacity targetXy (fromXy :: rest) amountLeft w).queueAt
        targetXy =
      w.queueAt targetXy ++
        [⟨res,
          amountLeft * w.available Worker /
            ceilDivCap amountLeft (transportCapacityFor ctx w workerCapacity fromXy targetXy),
          Worker, w.available Worker, w.available Worker, fromXy, targetXy, ctx.posOf fromXy,
          ctx.posOf targetXy, 0, ctx.ticksFor fromXy targetXy, true⟩] ∧
    (transportLoop ctx res workerCapacity targetXy (fromXy :: rest) amountLeft w).available
        Worker = 0 := by
  have hstep : transportStep ctx res workerCapacity targetXy fromXy amountLeft w =
      .done (addTransportation ctx res
        (amountLeft * w.available Worker /
          ceilDivCap amountLeft (transportCapacityFor ctx w workerCapacity fromXy targetXy))
        Worker (w.available Worker) fromXy targetXy
        (w.setTile fromXy
          { building with
              resources := building.resources.sadd res
                (-(amountLeft * w.available Worker /
                  ceilDivCap amountLeft
                    (transportCapacityFor ctx w workerCapacity fromXy targetXy))) })) := by
    rw [transportStep, hb]
    dsimp only
    rw [if_neg hne, if_neg (not_le.mpr hpos), if_pos hcover, if_neg (not_le.mpr hlack),
      if_pos hfpos]
  have hloop : ∀ rs, transportLoop ctx res workerCapacity targetXy (fromXy :: rs) amountLeft w =
      addTransportation ctx res
        (amountLeft * w.available Worker /
          ceilDivCap amountLeft (transportCapacityFor ctx w workerCapacity fromXy targetXy))
        Worker (w.available Worker) fromXy targetXy
        (w.setTile fromXy
          { building with
              resources := building.resources.sadd res
                (-(amountLeft * w.available Worker /
                  ceilDivCap amountLeft
                    (transportCapacityFor ctx w workerCapacity fromXy targetXy))) }) := by
    intro rs
    rw [transportLoop, hstep]
  obtain ⟨hT, hQ, hA⟩ := addTransportation_frame ctx res
    (amountLeft * w.available Worker /
      ceilDivCap amountLeft (transportCapacityFor ctx w workerCapacity fromXy targetXy))
    Worker (w.available Worker) fromXy targetXy
    (w.setTile fromXy
      { building with
          resources := building.resources.sadd res
            (-(amountLeft * w.available Worker /
              ceilDivCap amountLeft
                (transportCapacityFor ctx w workerCapacity fromXy targetXy))) })
  refine ⟨fun rest2 => (hloop rest).trans (hloop rest2).symm, ?_, ?_, ?_⟩
  · rw [hloop rest, hT]
    simp [World.setTile, Ledger.amt_sadd_self]
    ring
  · rw [hloop rest, hQ]
    simp [World.setTile, World.queueAt]
  · rw [hloop rest, hA]
    simp [World.setTile, World.available]

/-- A source building holding 10 units of resource 3. -/
def c5Building : Building :=
  ⟨7, BStatus.completed, 1, 1, 1, 0, 1, 0, [(3, 10)], none, false, [], [], false⟩

/-- A world with the source at tile 1 and 3 units of labor available:
fuel required is `ceil(10 / 2) = 5`, so labor is short. -/
def c5World : World :=
  { emptyWorld with
      tiles := fun y => if y = 1 then some c5Building else none
      cur := { TickData.empty with workersAvailable := [(Worker, 3)] } }

/-- C5, witness: at the concrete partially-fueled shipment the theorem
yields the exact debit `10 * 3 / 5 = 6` and a drained labor pool. -/
theorem c5_witness :
    ((transportLoop baseCtx 3 2 2 [1] 10 c5World).tiles 1).elim 0 (fun b => b.resources.amt 3) =
      c5Building.resources.amt 3 -
        10 * c5World.available Worker /
          ceilDivCap 10 (transportCapacityFor baseCtx c5World 2 1 2) ∧
    (transportLoop baseCtx 3 2 2 [1] 10 c5World).available Worker = 0 := by
  have h := c5_partial_fulfillment baseCtx 3 2 2 1 [] 10 c5World c5Building (by rfl) (by decide)
    (by norm_num [c5Building, Ledger.amt, List.find?])
    (by norm_num [c5Building, Ledger.amt, List.find?])
    (by norm_num [World.available, c5World, emptyWorld, TickData.empty, Ledger.amt, List.find?,
      Worker])
    (by norm_num [World.available, c5World, emptyWorld, TickData.empty, Ledger.amt, List.find?,
      Worker, ceilDivCap, ceilq, transportCapacityFor, typeAt, baseCtx, c5Building])
  exact ⟨h.2.1, h.2.2.2⟩

/-!
## Construction and upgrade cost scan (`tickTile`, Update.ts:262-304)
-/

/-- Modelled from the spec: `getAmountInTransit(xy, res, gs)` of
`ResourceLogic` (not under `src/`) — the amount of a resource currently
in flight toward a tile, summed over the destination's queue. -/
def amountInTransit (w : World) (xy : XY) (res : Res) : ℚ :=
  ((w.queueAt xy).filter (fun t => t.resource == res)).foldl (fun acc t => acc + t.amount) 0

/-- The ordered cost scan of a construction/upgrade tick
(Update.ts:264-287), iterating the level-cost entries in key order with
the `forEach` callback convention: returning `true` breaks the loop,
anything else continues. Returns the world, the `completed` flag, and
the trace of cost resources the scan visited, in order. The `building`
parameter is the tile's building object; the router never mutates the
destination tile, so its ledger reads are stable across the scan. -/
def scanCosts (ctx : Ctx) (xy : XY) (building : Building) :
    List (Res × ℚ) → World → Bool → World × Bool × List Res
  | [], w, completed => (w, completed, [])
  | (res, amount) :: rest, w, completed =>
    let total := ctx.builderCapacity building xy
    if building.resources.amt res ≥ amount then
      let z := scanCosts ctx xy building rest w completed
      (z.1, z.2.1, res :: z.2.2)
    else if building.resources.amt res + amountInTransit w xy res ≥ amount then
      let z := scanCosts ctx xy building rest w false
      (z.1, z.2.1, res :: z.2.2)
    else if w.available Worker ≥ 1 then
      let w1 := w.clearReason xy
      let w2 := w1.useWorkers Worker 1
      let w3 := transportResource ctx res total total xy w2
      (w3, false, [res])
    else
      let z := scanCosts ctx xy building rest (w.setReason xy Reason.NotEnoughWorkers) false
      (z.1, z.2.1, res :: z.2.2)

/-- Recording an already-recorded reason changes nothing. -/
theorem World.setReason_eq_self (w : World) (xy : XY) (r : Reason)
    (h : w.nxt.reasons xy = some r) : w.setReason xy r = w := by
  have hf : (fun y => if y = xy then some r else w.nxt.reasons y) = w.nxt.reasons := by
    funext y
    by_cases hy : y = xy
    · rw [if_pos hy, hy, h]
    · rw [if_neg hy]
  rw [World.setReason, hf]

/-- Once the labor pool is short and `NotEnoughWorkers` recorded, the
remainder of the cost scan has no effect on the world and leaves the
`completed` flag false. -/
theorem scanCosts_stuck (ctx : Ctx) (xy : XY) (building : Building) (l : List (Res × ℚ)) :
    ∀ w : World, w.available Worker < 1 →
      w.nxt.reasons xy = some Reason.NotEnoughWorkers →
      (scanCosts ctx xy building l w false).1 = w ∧
      (scanCosts ctx xy building l w false).2.1 = false := by
  induction l with
  | nil => exact fun w _ _ => ⟨rfl, rfl⟩
  | cons p rest ih =>
    intro w hw hr
    obtain ⟨res, amount⟩ := p
    rw [scanCosts]
    dsimp only
    split_ifs with h1 h2 h3
    · exact ih w hw hr
    · exact ih w hw hr
    · exact absurd h3 (not_le.mpr hw)
    · have hres : (w.setReason xy Reason.NotEnoughWorkers).nxt.reasons xy =
          some Reason.NotEnoughWorkers := by
        simp [World.setReason]
      have havail : (w.setReason xy Reason.NotEnoughWorkers).available Worker =
          w.available Worker := rfl
      have hz := ih (w.setReason xy Reason.NotEnoughWorkers) (havail ▸ hw) hres
      exact ⟨hz.1.trans (World.setReason_eq_self w xy Reason.NotEnoughWorkers hr), hz.2⟩

/-!
### Claim C3

The claim states that when generic labor is unavailable for a cost
resource still needing transport, `NotEnoughWorkers` is recorded and the
scan stops. In the source the `break` (`return true`, Update.ts:284)
sits in the success branch — after labor was claimed and a transport
enqueued. The labor-unavailable branch records the reason and falls off
the callback, which `forEach` treats as continue, so later cost
resources are still scanned.
-/

/-- A building under construction with an empty ledger. -/
def c3Building : Building :=
  ⟨5, BStatus.building, 0, 0, 1, 0, 1, 0, [], none, false, [], [], false⟩

/-- C3, counterexample: with costs `[(3,5), (4,5)]`, nothing delivered or
in transit, and an empty labor pool, the scan records `NotEnoughWorkers`
at resource 3 — where the claim says scanning stops — yet its visit trace
is `[3, 4]`: resource 4 is still scanned. -/
theorem c3_counterexample :
    emptyWorld.available Worker < 1 ∧
    (scanCosts baseCtx 1 c3Building [(3, 5), (4, 5)] emptyWorld true).1.nxt.reasons 1 =
      some Reason.NotEnoughWorkers ∧
    (scanCosts baseCtx 1 c3Building [(3, 5), (4, 5)] emptyWorld true).2.2 ≠ [3] ∧
    (scanCosts baseCtx 1 c3Building [(3, 5), (4, 5)] emptyWorld true).2.2 = [3, 4] := by
  have h0 : emptyWorld.available Worker = 0 := by
    norm_num [World.available, emptyWorld, TickData.empty, Ledger.amt, List.find?]
  have hscan : scanCosts baseCtx 1 c3Building [(3, 5), (4, 5)] emptyWorld true =
      ((emptyWorld.setReason 1 Reason.NotEnoughWorkers).setReason 1 Reason.NotEnoughWorkers,
        false, [3, 4]) := by
    norm_num [scanCosts, c3Building, Ledger.amt, List.find?, amountInTransit, World.queueAt,
      queueOf, emptyWorld, World.available, TickData.empty, World.setReason]
  refine ⟨?_, ?_, ?_, ?_⟩
  · rw [h0]
    norm_num
  · rw [hscan]
    simp [World.setReason]
  · rw [hscan]
    decide
  · rw [hscan]

/-- C3, amended: whenever generic labor is unavailable for a cost
resource that still needs transport, `NotEnoughWorkers` is recorded for
the tile; the scan then continues over the remaining cost resources but
has no further effect — the resulting world and `completed` flag are
exactly those of stopping at the blocking resource. -/
theorem c3_amended (ctx : Ctx) (xy : XY) (building : Building) (res : Res) (amount : ℚ)
    (rest : List (Res × ℚ)) (w : World) (completed : Bool)
    (hneed : building.resources.amt res < amount)
    (hint : building.resources.amt res + amountInTransit w xy res < amount)
    (hw : w.available Worker < 1) :
    (scanCosts ctx xy building ((res, amount) :: rest) w completed).1 =
      w.setReason xy Reason.NotEnoughWorkers ∧
    (scanCosts ctx xy building ((res, amount) :: rest) w completed).2.1 = false := by
  rw [scanCosts]
  dsimp only
  rw [if_neg (not_le.mpr hneed), if_neg (not_le.mpr hint), if_neg (not_le.mpr hw)]
  have hres : (w.setReason xy Reason.NotEnoughWorkers).nxt.reasons xy =
      some Reason.NotEnoughWorkers := by
    simp [World.setReason]
  exact scanCosts_stuck ctx xy building rest (w.setReason xy Reason.NotEnoughWorkers) hw hres

/-- C3, witness: the amended theorem at the concrete blocked scan. -/
theorem c3_witness :
    (scanCosts baseCtx 1 c3Building [(3, 5), (4, 5)] emptyWorld true).1 =
      emptyWorld.setReason 1 Reason.NotEnoughWorkers ∧
    (scanCosts baseCtx 1 c3Building [(3, 5), (4, 5)] emptyWorld true).2.1 = false := by
  have h := c3_amended baseCtx 1 c3Building 3 5 [(4, 5)] emptyWorld true ?hn ?hi ?hw
  case hn => norm_num [c3Building, Ledger.amt, List.find?]
  case hi =>
    norm_num [c3Building, Ledger.amt, List.find?, amountInTransit, World.queueAt, queueOf,
      emptyWorld]
  case hw => norm_num [World.available, emptyWorld, TickData.empty, Ledger.amt, List.find?]
  exact h

/-!
## Standard production (`tickTile`, Update.ts:435-501)
-/

/-- `addResources(Tick.next.workersAvailable, amounts)`. -/
def World.addNextWorkers (w : World) (amounts : Ledger) : World :=
  { w with nxt := { w.nxt with workersAvailable := w.nxt.workersAvailable.addAll amounts } }

/-- `safeAdd(Tick.next.workersAvailable, res, v)`. -/
def World.saddNextWorkers (w : World) (r : Res) (v : ℚ) : World :=
  { w with nxt := { w.nxt with workersAvailable := w.nxt.workersAvailable.sadd r v } }

/-- `Tick.next.electrified[xy] = level`. -/
def World.setElectrified (w : World) (xy : XY) (lvl : Nat) : World :=
  { w with nxt :=
      { w.nxt with electrified := fun y => if y = xy then some lvl else w.nxt.electrified y } }

/-- Modelled from the spec: `hasEnoughResources(resources, input)` of
`BuildingLogic` (not under `src/`) — every required input amount is
covered by the ledger. -/
def hasEnoughRes (m : Ledger) (input : Ledger) : Bool :=
  input.all (fun p => decide (m.amt p.1 ≥ p.2))

/-- The electrification step (Update.ts:469-485): clamp the requested
electrification to the building level (a persistent mutation), then
reserve power if available and register the electrification level. -/
def electrify (ctx : Ctx) (xy : XY) (w : World) : World :=
  match w.tiles xy with
  | none => w
  | some b =>
    if ctx.featElectricity ∧ ctx.canBeElectrified b.type ∧ b.electrification > 0 then
      let elec := min b.electrification b.level
      let w1 := w.setTile xy { b with electrification := elec }
      let requiredPower := ctx.powerRequired elec
      if w1.available Power ≥ requiredPower then
        (w1.useWorkers Power requiredPower).setElectrified xy elec
      else w1
    else w

/-- The output-crediting loop (Update.ts:489-500): transportable outputs
are credited to the tile's ledger — except `Science`, which is routed to
the headquarters — and non-transportable outputs go to the next tick's
generic worker-availability pool. -/
def creditOutputs (ctx : Ctx) (xy : XY) : Ledger → World → World
  | [], w => w
  | (res, v) :: rest, w =>
    let w2 :=
      if ctx.canStore res then
        if res = ScienceRes then
          match w.tiles ctx.hqXy with
          | some hq => w.setTile ctx.hqXy { hq with resources := hq.resources.sadd res v }
          | none => w
        else
          match w.tiles xy with
          | some b => w.setTile xy { b with resources := b.resources.sadd res v }
          | none => w
      else w.saddNextWorkers res v
    creditOutputs ctx xy rest w2

/-- The standard production phase of a completed non-market,
non-resource-import building (Update.ts:435-501): gate on workers, then
inputs, then storage — with the partial non-transportable fallback —
then electrification, labor, input deduction and output crediting.
`workerOut` is `worker.output` from Update.ts:354 and `(total, used)`
the storage snapshot from Update.ts:356. -/
def productionStep (ctx : Ctx) (xy : XY) (input output : Ledger)
    (workerOut total used : ℚ) (w : World) : World :=
  match w.tiles xy with
  | none => w
  | some building =>
    if ¬ (w.available Worker ≥ workerOut) then w.setReason xy Reason.NotEnoughWorkers
    else if ¬ (hasEnoughRes building.resources input = true) then
      w.setReason xy Reason.NotEnoughResources
    else if ¬ (output = [] ∨ used + ctx.storageRequired output ≤ total) then
      let nonTransportables := output.filter (fun p => ¬ ctx.canStore p.1)
      if nonTransportables.length > 0 then
        let workerOut2 := ctx.workersForNT w xy (nonTransportables.filter (fun p => p.1 ≠ Worker))
        let w1 := w.useWorkers Worker workerOut2
        let w2 := w1.setTile xy { building with resources := building.resources.deduct input }
        let w3 := w2.addNextWorkers nonTransportables
        if output.filter (fun p => ctx.canStore p.1) ≠ [] then w3.setReason xy Reason.StorageFull
        else w3
      else w.setReason xy Reason.StorageFull
    else
      let w1 := electrify ctx xy w
      let w2 := w1.useWorkers Worker workerOut
      let w3 :=
        match w2.tiles xy with
        | some b2 => w2.setTile xy { b2 with resources := b2.resources.deduct input }
        | none => w2
      creditOutputs ctx xy output w3

/-!
### Claim C6
-/

/-- C6: production gating runs in the fixed order workers → inputs →
storage. Insufficient workers records `NotEnoughWorkers` and changes
nothing else; otherwise insufficient inputs records `NotEnoughResources`
and changes nothing else; otherwise, on insufficient storage with some
non-transportable output, labor is consumed, inputs are deducted, only
the non-transportable outputs are added to the next workers-available
pool, and `StorageFull` is recorded exactly when some transportable
output remains; with all outputs transportable, `StorageFull` is
recorded and nothing is produced. -/
theorem c6_production_gating (ctx : Ctx) (xy : XY) (input output : Ledger)
    (workerOut total used : ℚ) (w : World) (building : Building)
    (hb : w.tiles xy = some building) :
    (¬ (w.available Worker ≥ workerOut) →
      productionStep ctx xy input output workerOut total used w =
        w.setReason xy Reason.NotEnoughWorkers) ∧
    (w.available Worker ≥ workerOut → ¬ (hasEnoughRes building.resources input = true) →
      productionStep ctx xy input output workerOut total used w =
        w.setReason xy Reason.NotEnoughResources) ∧
    (w.available Worker ≥ workerOut → hasEnoughRes building.resources input = true →
      ¬ (output = [] ∨ used + ctx.storageRequired output ≤ total) →
      (output.filter (fun p => ¬ ctx.canStore p.1) ≠ [] →
        (productionStep ctx xy input output workerOut total used w).tiles xy =
            some { building with resources := building.resources.deduct input } ∧
          (productionStep ctx xy input output workerOut total used w).nxt.workersAvailable =
            w.nxt.workersAvailable.addAll (output.filter (fun p => ¬ ctx.canStore p.1)) ∧
          (productionStep ctx xy input output workerOut total used w).used Worker =
            w.used Worker + ctx.workersForNT w xy
              ((output.filter (fun p => ¬ ctx.canStore p.1)).filter (fun p => p.1 ≠ Worker)) ∧
          (productionStep ctx xy input output workerOut total used w).nxt.reasons xy =
            (if output.filter (fun p => ctx.canStore p.1) ≠ [] then some Reason.StorageFull
             else w.nxt.reasons xy)) ∧
      (output.filter (fun p => ¬ ctx.canStore p.1) = [] →
        productionStep ctx xy input output workerOut total used w =
          w.setReason xy Reason.StorageFull)) := by
  refine ⟨fun h1 => ?_, fun h1 h2 => ?_, fun h1 h2 h3 => ⟨fun h4 => ?_, fun h4 => ?_⟩⟩
  · rw [productionStep, hb]
    dsimp only
    rw [if_pos h1]
  · rw [productionStep, hb]
    dsimp only
    rw [if_neg (not_not_intro h1), if_pos h2]
  · have hlen : (output.filter (fun p => ¬ ctx.canStore p.1)).length > 0 :=
      List.length_pos.mpr h4
    rw [productionStep, hb]
    dsimp only
    rw [if_neg (not_not_intro h1), if_neg (not_not_intro h2), if_pos h3]
    rw [if_pos hlen]
    by_cases h5 : output.filter (fun p => ctx.canStore p.1) ≠ []
    · rw [if_pos h5, if_pos h5]
      refine ⟨?_, ?_, ?_, ?_⟩ <;>
        simp [World.setReason, World.addNextWorkers, World.setTile, World.useWorkers,
          World.available, Worker]
    · rw [if_neg h5, if_neg h5]
      refine ⟨?_, ?_, ?_, ?_⟩ <;>
        simp [World.setReason, World.addNextWorkers, World.setTile, World.useWorkers,
          World.available, Worker]
  · have hlen : ¬ ((output.filter (fun p => ¬ ctx.canStore p.1)).length > 0) := by
      rw [h4]
      simp
    rw [productionStep, hb]
    dsimp only
    rw [if_neg (not_not_intro h1), if_neg (not_not_intro h2), if_pos h3]
    rw [if_neg hlen]

/-- A completed producer building holding 5 of resource 3. -/
def c6B : Building :=
  ⟨7, BStatus.completed, 2, 2, 1, 0, 1, 0, [(3, 5)], none, false, [], [], false⟩

/-- A world with the producer at tile 1 and an empty labor pool. -/
def w6a : World :=
  { emptyWorld with tiles := fun y => if y = 1 then some c6B else none }

/-- The same world with 10 units of labor available. -/
def w6b : World :=
  { w6a with cur := { TickData.empty with workersAvailable := [(Worker, 10)] } }

/-- C6, witness: the gating theorem applied at two concrete inputs — the
worker-gated branch and the storage-shortfall fallback branch. -/
theorem c6_witness :
    productionStep baseCtx 1 [(3, 2)] [(3, 1), (4, 2)] 5 10 0 w6a =
      w6a.setReason 1 Reason.NotEnoughWorkers ∧
    (productionStep baseCtx 1 [(3, 2)] [(3, 1), (4, 2)] 5 1 5 w6b).tiles 1 =
      some { c6B with resources := c6B.resources.deduct [(3, 2)] } ∧
    (productionStep baseCtx 1 [(3, 2)] [(3, 1), (4, 2)] 5 1 5 w6b).nxt.workersAvailable =
      w6b.nxt.workersAvailable.addAll
        (([(3, 1), (4, 2)] : Ledger).filter (fun p => ¬ baseCtx.canStore p.1)) := by
  have hA := c6_production_gating baseCtx 1 [(3, 2)] [(3, 1), (4, 2)] 5 10 0 w6a c6B ?hba
  have hB := c6_production_gating baseCtx 1 [(3, 2)] [(3, 1), (4, 2)] 5 1 5 w6b c6B ?hbb
  case hba => rfl
  case hbb => rfl
  refine ⟨hA.1 ?h1, ?_⟩
  case h1 => norm_num [World.available, w6a, emptyWorld, TickData.empty, Ledger.amt, List.find?]
  have h3 := hB.2.2 ?hw ?hi ?hs
  case hw =>
    norm_num [World.available, w6b, w6a, emptyWorld, TickData.empty, Ledger.amt, List.find?,
      Worker]
  case hi => norm_num [hasEnoughRes, c6B, Ledger.amt, List.find?, List.all, decide_eq_true_eq]
  case hs =>
    norm_num [baseCtx]
    decide
  have h4 := h3.1 ?hnt
  case hnt => decide
  exact ⟨h4.1, h4.2.1⟩

/-!
## Market price rotation (`tickPrice`, Update.ts:674-707)
-/

/-- `market.availableResources[res] = buy` with JS object semantics:
update in place or append. -/
def upsertPair : List (Res × Res) → Res → Res → List (Res × Res)
  | [], r, b => [(r, b)]
  | p :: rest, r, b => if p.1 == r then (r, b) :: rest else p :: upsertPair rest r b

/-- `market.availableResources[res]` lookup. -/
def lookupPair (m : List (Res × Res)) (r : Res) : Option Res :=
  (m.find? (fun p => p.1 == r)).map (fun p => p.2)

/-- The collision-skip loop `while (buy[idx % buy.length] === res) idx++`
(Update.ts:696-698), bounded by fuel; `none` models the source's
divergence when every entry of `buy` equals `res` (which happens exactly
when the eligible resource set is a singleton). -/
def skipSearch (buy : List Res) (res : Res) : Nat → Nat → Option Nat
  | _, 0 => none
  | idx, fuel + 1 =>
      if buy.getD (idx % buy.length) 0 == res then skipSearch buy res (idx + 1) fuel
      else some idx

/-- The assignment loop of the market price refresh (Update.ts:694-700):
`idx` persists across sell entries and advances only on collisions; each
sell resource is paired with the next buy entry different from itself. -/
def assignLoop (buy : List Res) :
    List Res → Nat → List (Res × Res) → Option (List (Res × Res))
  | [], _, m => some m
  | res :: rest, idx, m =>
    match skipSearch buy res idx (buy.length + 1) with
    | none => none
    | some idx2 => assignLoop buy rest idx2 (upsertPair m res (buy.getD (idx2 % buy.length) 0))

/-- The pairing refresh of one market building (Update.ts:691-701): both
permutations come from `shuffle(keysOf(resources), srand(priceId + xy))`
— the same seed twice, hence the same deterministic sequence — and the
assignment loop writes over the market's existing pairing map. -/
def marketRefreshPairs (ctx : Ctx) (priceId : Nat) (xy : XY) (resources : List Res)
    (m0 : List (Res × Res)) : Option (List (Res × Res)) :=
  let sell := ctx.shuffle (ctx.seedOf priceId xy) resources
  let buy := ctx.shuffle (ctx.seedOf priceId xy) resources
  assignLoop buy sell 0 m0

/-- No binding of the pairing map trades a resource for itself. -/
def noSelfPair (m : List (Res × Res)) : Prop := ∀ p ∈ m, p.2 ≠ p.1

/-- The collision-skip loop only ever lands on an entry different from
the sell resource. -/
theorem skipSearch_ne (buy : List Res) (res : Res) :
    ∀ fuel idx idx2, skipSearch buy res idx fuel = some idx2 →
      buy.getD (idx2 % buy.length) 0 ≠ res := by
  intro fuel
  induction fuel with
  | zero => intro idx idx2 h; simp [skipSearch] at h
  | succ n ih =>
    intro idx idx2 h
    rw [skipSearch] at h
    by_cases hc : buy.getD (idx % buy.length) 0 == res
    · rw [if_pos hc] at h
      exact ih _ _ h
    · rw [if_neg hc] at h
      cases h
      simpa using hc

/-- Upserting a non-self binding preserves `noSelfPair`. -/
theorem noSelfPair_upsert (m : List (Res × Res)) (r b : Res)
    (hm : noSelfPair m) (hb : b ≠ r) : noSelfPair (upsertPair m r b) := by
  induction m with
  | nil =>
    intro p hp
    simp [upsertPair] at hp
    rw [hp]
    exact hb
  | cons q rest ih =>
    intro p hp
    by_cases hq : q.1 == r
    · simp only [upsertPair, if_pos hq] at hp
      rcases List.mem_cons.mp hp with h | h
      · rw [h]
        exact hb
      · exact hm p (List.mem_cons_of_mem q h)
    · simp only [upsertPair, if_neg hq] at hp
      rcases List.mem_cons.mp hp with h | h
      · rw [h]
        exact hm q (List.mem_cons_self q rest)
      · exact ih (fun p2 hp2 => hm p2 (List.mem_cons_of_mem q hp2)) p h

/-- The assignment loop preserves `noSelfPair`. -/
theorem assignLoop_noSelf (buy : List Res) (sell : List Res) :
    ∀ idx m0 m, noSelfPair m0 → assignLoop buy sell idx m0 = some m → noSelfPair m := by
  induction sell with
  | nil =>
    intro idx m0 m hm0 h
    rw [assignLoop] at h
    cases h
    exact hm0
  | cons res rest ih =>
    intro idx m0 m hm0 h
    rw [assignLoop] at h
    cases hs : skipSearch buy res idx (buy.length + 1) with
    | none => rw [hs] at h; cases h
    | some idx2 =>
      rw [hs] at h
      exact ih idx2 _ m
        (noSelfPair_upsert m0 res _ hm0 (skipSearch_ne buy res _ idx idx2 hs)) h

/-!
### Claim C7
-/

/-- C7: for every market building, immediately after a price refresh the
buy/sell pairing maps no resource to itself — provided the refresh
terminates (`some`) and the pre-existing map already had no self-binding
(in particular, starting from the freshly initialized empty map). -/
theorem c7_no_self_trade (ctx : Ctx) (priceId : Nat) (xy : XY) (resources : List Res)
    (m0 m : List (Res × Res)) (hm0 : noSelfPair m0)
    (h : marketRefreshPairs ctx priceId xy resources m0 = some m) :
    ∀ res buyRes, lookupPair m res = some buyRes → buyRes ≠ res := by
  have hns : noSelfPair m :=
    assignLoop_noSelf (ctx.shuffle (ctx.seedOf priceId xy) resources)
      (ctx.shuffle (ctx.seedOf priceId xy) resources) 0 m0 m hm0 h
  intro res buyRes hl
  unfold lookupPair at hl
  cases hf : m.find? (fun p => p.1 == res) with
  | none => rw [hf] at hl; cases hl
  | some p =>
    rw [hf] at hl
    have hmem := List.mem_of_find?_eq_some hf
    have hpr : p.1 = res := by simpa using List.find?_some hf
    have hb : p.2 = buyRes := by simpa using hl
    rw [← hb, ← hpr]
    exact hns p hmem

/-- C7, witness: with the identity shuffle over resources `[3, 4]`, the
refresh pairs each with the other and the theorem rules out self-trades
for both bindings. -/
theorem c7_witness :
    marketRefreshPairs baseCtx 0 1 [3, 4] [] = some [(3, 4), (4, 3)] ∧
    ((4 : Res) ≠ 3) ∧ ((3 : Res) ≠ 4) :=
  ⟨by decide,
    c7_no_self_trade baseCtx 0 1 [3, 4] [] [(3, 4), (4, 3)]
      (by simp [noSelfPair]) (by decide) 3 4 (by decide),
    c7_no_self_trade baseCtx 0 1 [3, 4] [] [(3, 4), (4, 3)]
      (by simp [noSelfPair]) (by decide) 4 3 (by decide)⟩

/-!
## Warehouse autopilot (`tickWarehouseAutopilot`, Update.ts:504-564)
-/

/-- The helper `clamp(v, lo, hi)`. -/
def clampq (v lo hi : ℚ) : ℚ := min (max v lo) hi

/-- Candidate resources of one full-storage source (Update.ts:537-539):
the ledger keys that are a static output of the source's building kind,
sorted by held amount descending (stable sort). -/
def autopilotCandidates (ctx : Ctx) (building : Building) : List Res :=
  ((building.resources.map Prod.fst).filter
      (fun r => ctx.staticOutput building.type r)).mergeSort
    (fun a b => decide (building.resources.amt b ≤ building.resources.amt a))

/-- Result of the inner candidate loop: `ret` models the early
`return hasTransported` (Update.ts:552), `fall` models falling through
to the next full-storage source. -/
inductive APStep where
  | ret (w : World)
  | fall (capacity : ℚ) (hasTransported : Bool) (w : World)

/-- The inner candidate loop (Update.ts:540-561): drain the
largest-quantity candidates of one source, computing the per-step worker
cost against the "questionable" upgraded transport capacity — `Infinity`
when adjacent, else `Math.ceil(capacity / transportCapacity)` — and
stopping the whole autopilot once a candidate covers the remaining
capacity. -/
def autopilotInner (ctx : Ctx) (xy fromXy : XY) (tc : ℚ) :
    List Res → ℚ → Bool → World → APStep
  | [], capacity, ht, w => .fall capacity ht w
  | candidate :: rest, capacity, ht, w =>
    match w.tiles fromXy with
    | none => .fall capacity ht w
    | some building =>
      let utc : Option ℚ :=
        if ctx.dist fromXy xy ≤ 1 then none else some (ceilq (capacity / tc))
      if building.resources.amt candidate ≥ capacity then
        let workers := ceilDivCap capacity utc
        let w1 := w.useWorkers Worker workers
        let w2 := w1.setTile fromXy
          { building with resources := building.resources.sadd candidate (-capacity) }
        .ret (addTransportation ctx candidate capacity Worker workers fromXy xy w2)
      else
        let amount := building.resources.amt candidate
        let workers := ceilDivCap amount utc
        let w1 := w.useWorkers Worker workers
        let w2 := w1.setTile fromXy
          { building with resources := building.resources.sadd candidate (-amount) }
        let w3 := addTransportation ctx candidate amount Worker workers fromXy xy w2
        autopilotInner ctx xy fromXy tc rest (capacity - amount) true w3

/-- The outer source loop (Update.ts:529-562) over the full-storage
tiles, nearest first. -/
def autopilotOuter (ctx : Ctx) (xy : XY) (tc : ℚ) :
    List XY → ℚ → Bool → World → Bool × World
  | [], _, ht, w => (ht, w)
  | fromXy :: rest, capacity, ht, w =>
    match w.tiles fromXy with
    | none => autopilotOuter ctx xy tc rest capacity ht w
    | some building =>
      if fromXy = xy then autopilotOuter ctx xy tc rest capacity ht w
      else
        match autopilotInner ctx xy fromXy tc (autopilotCandidates ctx building) capacity ht w with
        | .ret w2 => (true, w2)
        | .fall cap2 ht2 w2 => autopilotOuter ctx xy tc rest cap2 ht2 w2

/-- `tickWarehouseAutopilot` (Update.ts:504-564): compute the idle
capacity budget, cap it by labor then clamp by storage headroom, and
greedily drain the nearest full-storage sources. -/
def tickWarehouseAutopilot (ctx : Ctx) (warehouse : Building) (xy : XY) (w : World) :
    Bool × World :=
  let capacity0 := ctx.warehouseIdleCapacity warehouse
  let tc := ctx.workerMult w xy + w.cur.transportCapacityBonus
  let capacity1 :=
    if ceilq (capacity0 / tc) > w.available Worker then w.available Worker * tc else capacity0
  let su := ctx.storageFor w xy
  let capacity2 := clampq capacity1 0 (su.1 - su.2)
  if capacity2 ≤ 0 then (false, w)
  else
    let sources := (ctx.storageFullBuildings w).mergeSort
        (fun a b => decide (ctx.dist a xy ≤ ctx.dist b xy))
    autopilotOuter ctx xy tc sources capacity2 false w

/-!
### Claim C8

The guarded reservation sites (transport fuel, construction labor, the
router, production labor and electrification power) never overdraw the
pools, but the warehouse-autopilot worker cost is computed as
`ceil(capacity / ceil(capacity / transportCapacity))` — bounded by the
transport capacity, not by the available workers — and is reserved
without an availability check, so the Worker pool can go negative.
-/

/-- An autopilot-enabled warehouse. -/
def c8Warehouse : Building :=
  ⟨101, BStatus.completed, 1, 1, 1, 0, 1, 0, [], none, true, [], [], false⟩

/-- A full-storage source holding 20 of resource 5. -/
def c8Source : Building :=
  ⟨8, BStatus.completed, 1, 1, 1, 0, 1, 0, [(5, 20)], none, false, [], [], false⟩

/-- A context with idle capacity 10, transport capacity 10 per worker,
ample storage headroom, and tile 2 reported full. -/
def c8Ctx : Ctx :=
  { baseCtx with
      warehouseIdleCapacity := fun _ => 10
      workerMult := fun _ _ => 10
      storageFor := fun _ _ => (100, 0)
      storageFullBuildings := fun _ => [2]
      staticOutput := fun _ _ => true }

/-- The warehouse at tile 1, the source at tile 2, one worker available. -/
def c8World : World :=
  { emptyWorld with
      tiles := fun y => if y = 1 then some c8Warehouse else if y = 2 then some c8Source else none
      cur := { TickData.empty with workersAvailable := [(Worker, 1)] } }

/-- C8, counterexample: with 1 worker available the labor cap leaves the
budget at 10 (`ceil(10/10) = 1` is not above 1), yet the per-step worker
cost is `ceil(10 / ceil(10/10)) = 10`, reserved without a check: the
Worker pool ends negative. -/
theorem c8_counterexample :
    c8World.available Worker = 1 ∧
    (tickWarehouseAutopilot c8Ctx c8Warehouse 1 c8World).2.available Worker < 0 := by
  have h1 : c8World.available Worker = 1 := by
    norm_num [World.available, c8World, emptyWorld, TickData.empty, Ledger.amt, List.find?,
      Worker]
  refine ⟨h1, ?_⟩
  norm_num [tickWarehouseAutopilot, autopilotOuter, autopilotInner, autopilotCandidates,
    addTransportation, clampq, ceilq, ceilDivCap, World.useWorkers, World.setTile,
    World.available, Ledger.amt, List.find?, c8Ctx, baseCtx, c8World, c8Warehouse, c8Source,
    emptyWorld, TickData.empty, Worker, pushQueue, List.mergeSort]

/-- Availability after a reservation, for any pool kind. -/
theorem World.available_useWorkers (w : World) (r : Res) (a : ℚ) (s : Res) :
    (w.useWorkers r a).available s = if s = r then w.available s - a else w.available s := by
  simp only [World.useWorkers, World.available]
  split_ifs <;> ring

/-- Replacing a tile does not touch the pools. -/
theorem World.available_setTile (w : World) (xy : XY) (b : Building) (r : Res) :
    (w.setTile xy b).available r = w.available r := rfl

/-- Committing a transport reserves exactly its fuel from its fuel pool. -/
theorem addTransportation_available (ctx : Ctx) (res : Res) (amount : ℚ) (fuel : Res)
    (fuelAmount : ℚ) (fromXy toXy : XY) (w : World) (r : Res) :
    (addTransportation ctx res amount fuel fuelAmount fromXy toXy w).available r =
      if r = fuel then w.available r - fuelAmount else w.available r := by
  simpa [addTransportation] using World.available_useWorkers w fuel fuelAmount r

/-- The world carried by a router step. -/
def RouteStep.world : RouteStep → World
  | .next _ w => w
  | .done w => w

/-- A router candidate step keeps every pool non-negative: each commit is
bounded by the labor it found available. -/
theorem transportStep_nonneg (ctx : Ctx) (res : Res) (workerCapacity : ℚ)
    (targetXy fromXy : XY) (amountLeft : ℚ) (w : World)
    (hw : ∀ r, 0 ≤ w.available r) :
    ∀ r, 0 ≤ (transportStep ctx res workerCapacity targetXy fromXy amountLeft w).world.available r := by
  intro r
  rw [transportStep]
  cases hb : w.tiles fromXy with
  | none => exact hw r
  | some building =>
    dsimp only
    split_ifs with h1 h2 h3 h4 h5 h6 h7
    · exact hw r
    · exact hw r
    · simp only [RouteStep.world, addTransportation_available, World.available_setTile]
      split_ifs with hr
      · subst hr
        have h4w : ceilDivCap amountLeft
            (transportCapacityFor ctx w workerCapacity fromXy targetXy) ≤
            w.available Worker := h4
        linarith
      · exact hw r
    · simp only [RouteStep.world, addTransportation_available, World.available_setTile]
      split_ifs with hr
      · subst hr
        simp
      · exact hw r
    · exact hw r
    · simp only [RouteStep.world, addTransportation_available, World.available_setTile]
      split_ifs with hr
      · subst hr
        have h6w : ceilDivCap (building.resources.amt res)
            (transportCapacityFor ctx w workerCapacity fromXy targetXy) ≤
            w.available Worker := h6
        linarith
      · exact hw r
    · simp only [RouteStep.world, addTransportation_available, World.available_setTile]
      split_ifs with hr
      · subst hr
        simp
      · exact hw r
    · exact hw r

/-- The router loop keeps every pool non-negative. -/
theorem transportLoop_nonneg (ctx : Ctx) (res : Res) (workerCapacity : ℚ) (targetXy : XY)
    (sources : List XY) :
    ∀ (amountLeft : ℚ) (w : World), (∀ r, 0 ≤ w.available r) →
      ∀ r, 0 ≤ (transportLoop ctx res workerCapacity targetXy sources amountLeft w).available r := by
  induction sources with
  | nil => exact fun _ w hw => hw
  | cons fromXy rest ih =>
    intro amountLeft w hw
    have hstep := transportStep_nonneg ctx res workerCapacity targetXy fromXy amountLeft w hw
    rw [transportLoop]
    cases hs : transportStep ctx res workerCapacity targetXy fromXy amountLeft w with
    | next a w2 =>
      refine ih a w2 ?_
      simpa [hs, RouteStep.world] using hstep
    | done w2 =>
      simpa [hs, RouteStep.world] using hstep

/-- `transportResource` keeps every pool non-negative. -/
theorem transportResource_nonneg (ctx : Ctx) (res : Res) (amount workerCapacity : ℚ)
    (targetXy : XY) (w : World) (hw : ∀ r, 0 ≤ w.available r) :
    ∀ r, 0 ≤ (transportResource ctx res amount workerCapacity targetXy w).available r := by
  rw [transportResource]
  split_ifs with h
  · exact hw
  · exact transportLoop_nonneg ctx res workerCapacity targetXy _ amount w hw

/-- The construction cost scan keeps every pool non-negative: it claims
one worker only after checking one is available, and then routes through
the labor-gated router. -/
theorem scanCosts_nonneg (ctx : Ctx) (xy : XY) (building : Building) (cost : List (Res × ℚ)) :
    ∀ (w : World) (completed : Bool), (∀ r, 0 ≤ w.available r) →
      ∀ r, 0 ≤ (scanCosts ctx xy building cost w completed).1.available r := by
  induction cost with
  | nil => exact fun w completed hw => hw
  | cons p rest ih =>
    intro w completed hw
    obtain ⟨res, amount⟩ := p
    rw [scanCosts]
    dsimp only
    split_ifs with h1 h2 h3
    · exact ih w completed hw
    · exact ih w false hw
    · refine transportResource_nonneg ctx res _ _ xy _ ?_
      intro r
      rw [World.available_useWorkers]
      split_ifs with hr
      · subst hr
        show 0 ≤ w.available Worker - 1
        have h3w : (1 : ℚ) ≤ w.available Worker := h3
        linarith
      · exact hw r
    · exact ih _ false hw

/-- The output-crediting loop never touches the pools. -/
theorem creditOutputs_available (ctx : Ctx) (xy : XY) (l : Ledger) :
    ∀ (w : World) (r : Res), (creditOutputs ctx xy l w).available r = w.available r := by
  induction l with
  | nil => exact fun w r => rfl
  | cons p rest ih =>
    intro w r
    obtain ⟨res, v⟩ := p
    rw [creditOutputs]
    rw [ih]
    by_cases hcs : ctx.canStore res = true
    · by_cases hsc : res = ScienceRes
      · rw [if_pos hcs, if_pos hsc]
        cases htile : w.tiles ctx.hqXy <;> simp [World.available_setTile]
      · rw [if_pos hcs, if_neg hsc]
        cases htile : w.tiles xy <;> simp [World.available_setTile]
    · rw [if_neg hcs]
      rfl

/-- Electrification reserves power only when available. -/
theorem electrify_nonneg (ctx : Ctx) (xy : XY) (w : World)
    (hw : ∀ r, 0 ≤ w.available r) :
    ∀ r, 0 ≤ (electrify ctx xy w).available r := by
  intro r
  rw [electrify]
  cases hb : w.tiles xy with
  | none => exact hw r
  | some b =>
    dsimp only
    split_ifs with h1 h2
    · rw [World.setElectrified]
      rw [show ∀ (w2 : World) (n : TickData), ({ w2 with nxt := n } : World).available r =
          w2.available r from fun _ _ => rfl]
      rw [World.available_useWorkers]
      split_ifs with hr
      · subst hr
        have := h2
        rw [World.available_setTile] at this ⊢
        linarith
      · exact hw r
    · exact hw r
    · exact hw r

/-- Electrification can only change the Power pool. -/
theorem electrify_available_ne (ctx : Ctx) (xy : XY) (w : World) (r : Res)
    (hr : r ≠ Power) : (electrify ctx xy w).available r = w.available r := by
  rw [electrify]
  cases hb : w.tiles xy with
  | none => rfl
  | some b =>
    dsimp only
    split_ifs with h1 h2
    · rw [World.setElectrified]
      rw [show ∀ (w2 : World) (n : TickData), ({ w2 with nxt := n } : World).available r =
          w2.available r from fun _ _ => rfl]
      rw [World.available_useWorkers, if_neg hr, World.available_setTile]
    · rfl
    · rfl

/-!
### Claim C8, amended theorem
-/

/-- C8, amended: every reservation performed through the guarded sites —
per-tick transport fuel, construction labor, the router's transport
commits, and production labor plus electrification power (given that the
byproduct-only worker requirement never exceeds the full production
requirement, which holds for the calculators since the byproduct set is
a subset of the outputs) — keeps the available Worker and Power pools
non-negative. The warehouse-autopilot reservation is exempted: it can
overdraw the Worker pool (see the counterexample). -/
theorem c8_amended (ctx : Ctx) :
    (∀ mah t w, (∀ r, 0 ≤ w.available r) →
      ∀ r, 0 ≤ (tickTransportation ctx mah t w).2.available r) ∧
    (∀ xy building cost w completed, (∀ r, 0 ≤ w.available r) →
      ∀ r, 0 ≤ (scanCosts ctx xy building cost w completed).1.available r) ∧
    (∀ res amount workerCapacity targetXy w, (∀ r, 0 ≤ w.available r) →
      ∀ r, 0 ≤ (transportResource ctx res amount workerCapacity targetXy w).available r) ∧
    (∀ xy input output workerOut total used w,
      ctx.workersForNT w xy
          ((output.filter (fun p => ¬ ctx.canStore p.1)).filter (fun p => p.1 ≠ Worker)) ≤
        workerOut →
      (∀ r, 0 ≤ w.available r) →
      ∀ r, 0 ≤ (productionStep ctx xy input output workerOut total used w).available r) := by
  refine ⟨?_, ?_, ?_, ?_⟩
  · intro mah t w hw r
    rw [tickTransportation]
    dsimp only
    split_ifs with h1 h2
    · exact hw r
    · show 0 ≤ (w.useWorkers t.fuel (fuelNeed mah t)).available r
      rw [World.available_useWorkers]
      split_ifs with hr
      · subst hr
        have h2w : fuelNeed mah t ≤ w.available t.fuel := h2
        linarith
      · exact hw r
    · exact hw r
  · exact fun xy building cost w completed => scanCosts_nonneg ctx xy building cost w completed
  · exact fun res amount workerCapacity targetXy w =>
      transportResource_nonneg ctx res amount workerCapacity targetXy w
  · intro xy input output workerOut total used w hnt hw r
    rw [productionStep]
    cases hb : w.tiles xy with
    | none => exact hw r
    | some building =>
      dsimp only
      split_ifs with h1 h2 h3 h4 h5
      all_goals try exact hw r
      all_goals
        first
        | -- the storage-shortfall fallback branches: only the recomputed
          -- byproduct labor is reserved, and it is bounded by `workerOut`
          (show 0 ≤ (w.useWorkers Worker (ctx.workersForNT w xy
              ((output.filter (fun p => ¬ ctx.canStore p.1)).filter
                (fun p => p.1 ≠ Worker)))).available r
           rw [World.available_useWorkers]
           split_ifs with hr
           · subst hr
             have h1r : workerOut ≤ w.available Worker := h1
             linarith
           · exact hw r)
        | -- the full production branch: electrification is power-gated and
          -- the labor reservation is covered by the worker gate
          (have hEw : (electrify ctx xy w).available Worker = w.available Worker :=
            electrify_available_ne ctx xy w Worker (by decide)
           have helec := electrify_nonneg ctx xy w hw
           rw [creditOutputs_available]
           cases htile : ((electrify ctx xy w).useWorkers Worker workerOut).tiles xy with
           | some b2 =>
             dsimp only
             rw [World.available_setTile, World.available_useWorkers]
             split_ifs with hr
             · subst hr
               rw [hEw]
               have h1r : workerOut ≤ w.available Worker := h1
               linarith
             · exact helec r
           | none =>
             dsimp only
             rw [World.available_useWorkers]
             split_ifs with hr
             · subst hr
               rw [hEw]
               have h1r : workerOut ≤ w.available Worker := h1
               linarith
             · exact helec r)

/-- C8, witness: the amended theorem applied to concrete guarded
reservations starting from non-negative pools. -/
theorem c8_witness :
    (0 : ℚ) ≤ (tickTransportation baseCtx none c2Transport emptyWorld).2.available Worker ∧
    (0 : ℚ) ≤ (scanCosts baseCtx 1 c3Building [(3, 5)] emptyWorld true).1.available Worker ∧
    (0 : ℚ) ≤ (transportResource baseCtx 3 10 2 2 emptyWorld).available Worker ∧
    (0 : ℚ) ≤ (productionStep baseCtx 1 [(3, 2)] [(3, 1), (4, 2)] 5 1 5 w6b).available Worker := by
  have hne : ∀ r, 0 ≤ emptyWorld.available r := by
    intro r
    norm_num [World.available, emptyWorld, TickData.empty, Ledger.amt, List.find?]
  have hwb : ∀ r, 0 ≤ w6b.available r := by
    intro r
    have h2 : Ledger.amt [(Worker, 10)] r = 10 ∨ Ledger.amt [(Worker, 10)] r = 0 := by
      by_cases h : (Worker : Res) == r
      · left
        simp [Ledger.amt, List.find?, h]
      · right
        simp [Ledger.amt, List.find?, h]
    show 0 ≤ Ledger.amt [(Worker, 10)] r - 0
    rcases h2 with h | h <;> rw [h] <;> norm_num
  obtain ⟨hT, hS, hR, hP⟩ := c8_amended baseCtx
  refine ⟨hT none c2Transport emptyWorld hne Worker,
    hS 1 c3Building [(3, 5)] emptyWorld true hne Worker,
    hR 3 10 2 2 emptyWorld hne Worker,
    hP 1 [(3, 2)] [(3, 1), (4, 2)] 5 1 5 w6b ?_ hwb Worker⟩
  norm_num [baseCtx]

/-!
## The full tile step (`tickTile`, Update.ts:248-502) and the tick
pipeline (`tickEverySecond`, Update.ts:112-155)
-/

/-- One market's price refresh within `tickPrice` (Update.ts:685-705):
recompute the pairing map when empty or on a forced hourly refresh, and
clear the sell selection when the market options ask for it. When the
source's pairing loop diverges (singleton resource set) the model leaves
the pairing unchanged. -/
def tickPriceBuilding (ctx : Ctx) (priceId : Nat) (forceUpdatePrice : Bool)
    (resources : List Res) (w : World) (xy : XY) : World :=
  match w.tiles xy with
  | none => w
  | some building =>
    if building.type = ctx.marketKind then
      let b1 :=
        if building.availableResources.length ≤ 0 ∨ forceUpdatePrice = true then
          match marketRefreshPairs ctx priceId xy resources building.availableResources with
          | some m => { building with availableResources := m }
          | none => building
        else building
      let b2 :=
        if forceUpdatePrice = true ∧ b1.marketClearAfterUpdate = true then
          { b1 with sellResources := [] }
        else b1
      w.setTile xy b2
    else w

/-- `tickPrice(gs)` (Update.ts:674-707): update the hour-bucket marker
and refresh every market in tile key order. -/
def tickPriceAll (ctx : Ctx) (priceId : Nat) (w0 : World) : World :=
  let force := w0.lastPriceUpdated ≠ priceId
  let w1 := if w0.lastPriceUpdated ≠ priceId then { w0 with lastPriceUpdated := priceId } else w0
  let resources := ctx.unlocked.filter (fun r => ctx.canPrice r && ctx.canStore r)
  w1.tileKeys.foldl (tickPriceBuilding ctx priceId force resources) w1

/-- The input transport phase (Update.ts:362-385): for each transportable
input scaled by the stockpile setting, skip when the addition would
overflow storage or when the ledger plus in-transit amount already meets
the cap (a per-resource import cap for import-capable buildings, else a
stockpile multiple), otherwise pull through the router. -/
def inputTransportPhase (ctx : Ctx) (xy : XY) (inputWorkerCapacity total used : ℚ) :
    Ledger → Bool → World → World × Bool
  | [], ht, w => (w, ht)
  | (res, val) :: rest, ht, w =>
    match w.tiles xy with
    | none => inputTransportPhase ctx xy inputWorkerCapacity total used rest ht w
    | some building =>
      let amount := val * building.stockpileCapacity
      if amount ≤ 0 then inputTransportPhase ctx xy inputWorkerCapacity total used rest ht w
      else if used + ctx.storageRequired [(res, amount)] > total then
        inputTransportPhase ctx xy inputWorkerCapacity total used rest ht w
      else
        let maxAmount :=
          match building.resourceImports with
          | some ri => ri.amt res
          | none => ctx.stockpileMax building * amount
        if building.resources.amt res + amountInTransit w xy res > maxAmount then
          inputTransportPhase ctx xy inputWorkerCapacity total used rest ht w
        else
          inputTransportPhase ctx xy inputWorkerCapacity total used rest true
            (transportResource ctx res amount inputWorkerCapacity xy w)

/-- The market trading branch (Update.ts:405-429): for each configured
sell resource, trade the capacity-bounded amount at the current price
ratio unless the net storage delta would overflow. -/
def marketSells (ctx : Ctx) (xy : XY) (total used : ℚ) :
    List Res → ℚ → World → World × ℚ
  | [], totalBought, w => (w, totalBought)
  | res :: rest, totalBought, w =>
    match w.tiles xy with
    | none => marketSells ctx xy total used rest totalBought w
    | some building =>
      let amount := clampq ((building.capacity * building.level) * ctx.outputMult w xy) 0
          (building.resources.amt res)
      let buyResource := (lookupPair building.availableResources res).getD 0
      let buyAmount := amount * ctx.marketPrice res xy / ctx.marketPrice buyResource xy
      if used - amount + buyAmount > total then
        marketSells ctx xy total used rest totalBought (w.setReason xy Reason.StorageFull)
      else
        marketSells ctx xy total used rest (totalBought + buyAmount)
          (w.setTile xy
            { building with
                resources := (building.resources.sadd res (-amount)).sadd buyResource buyAmount })

/-- The pre-production bookkeeping of a completed building
(Update.ts:307-336): special-building registration (the Mausoleum is the
one the engine reads back), world value accumulation, and the
resource-location index for every positively held resource. The
banking/caravansary entries are snapshot attribution lists with no
reader inside the engine. -/
def registerTile (ctx : Ctx) (xy : XY) (building : Building) (w0 : World) : World :=
  let w1 :=
    if ctx.isSpecialB building.type ∧ ctx.isMah building.type then
      { w0 with nxt := { w0.nxt with mahXy := some xy } }
    else w0
  let w2 :=
    { w1 with nxt :=
        { w1.nxt with totalValue := w1.nxt.totalValue + ctx.buildingValue building } }
  building.resources.foldl
    (fun w p =>
      if p.2 ≤ 0 then w
      else
        { w with nxt :=
            { w.nxt with
                totalValue := w.nxt.totalValue +
                  (if ctx.canPrice p.1 then ctx.resourcePrice p.1 * p.2 else 0)
                resourcesByGrid := fun r =>
                  if r = p.1 then w.nxt.resourcesByGrid r ++ [xy]
                  else w.nxt.resourcesByGrid r } })
    w2

/-- The construction/upgrade branch (Update.ts:262-305): scan the level
costs, and on full delivery raise the level, transition the status
(applying configured defaults on first completion) and deduct the cost. -/
def constructionStep (ctx : Ctx) (xy : XY) (b : Building) (w0 : World) : World :=
  let cost := ctx.buildingCost b
  let z := scanCosts ctx xy b cost w0 true
  if z.2.1 then
    match z.1.tiles xy with
    | none => z.1
    | some bc0 =>
      let bc1 := { bc0 with level := bc0.level + 1 }
      let bc2 :=
        if bc1.status = BStatus.building then
          applyDefaults { bc1 with status := BStatus.completed } (ctx.defaultsOf bc1.type)
        else if bc1.status = BStatus.upgrading ∧ bc1.desiredLevel ≤ bc1.level then
          { bc1 with status := BStatus.completed }
        else bc1
      z.1.setTile xy { bc2 with resources := bc2.resources.deduct cost }
  else z.1

/-- The completed-building branch (Update.ts:307-501): bookkeeping,
deposit and capacity gates, the input transport phase with the optional
warehouse autopilot, then the market / resource-import / standard
production split. -/
def completedStep (ctx : Ctx) (xy : XY) (b : Building) (w0 : World) : World :=
  let w := registerTile ctx xy b w0
  let input := (ctx.buildingInput w xy).filter (fun p => ctx.canStore p.1)
  let output := ctx.buildingOutput w xy
  if (ctx.requiredDeposits b.type).any (fun d => ! w.deposit xy d) then
    w.setReason xy Reason.NotOnDeposit
  else if b.capacity ≤ 0 then w.setReason xy Reason.TurnedOff
  else
    let workerOut := ctx.workersFor w xy
    let inputWorkerCapacity := ctx.workerMult w xy
    let su := ctx.storageFor w xy
    let z := inputTransportPhase ctx xy inputWorkerCapacity su.1 su.2 input false w
    let z2 :=
      if ctx.featWarehouseUpgrade ∧ b.warehouseAutopilot = true then
        let r := tickWarehouseAutopilot ctx b xy z.1
        (r.2, r.1)
      else z
    let w2 :=
      if b.resourceImports.isSome ∧ z2.2 = false then
        z2.1.setReason xy Reason.NoActiveTransports
      else z2.1
    if b.type = ctx.marketKind then (marketSells ctx xy su.1 su.2 b.sellResources 0 w2).1
    else if b.resourceImports.isSome then w2
    else productionStep ctx xy input output workerOut su.1 su.2 w2

/-- `tickTile` (Update.ts:248-502). -/
def tickTile (ctx : Ctx) (xy : XY) (w : World) : World :=
  match w.tiles xy with
  | none => w
  | some b0 =>
    if b0.status = BStatus.paused then w
    else if ctx.isNaturalWonderB b0.type ∧ w.explored xy = false then w
    else
      let b :=
        if b0.level < b0.desiredLevel then { b0 with status := BStatus.upgrading }
        else { b0 with desiredLevel := b0.level }
      let w1 := w.setTile xy b
      if b.status = BStatus.building ∨ b.status = BStatus.upgrading then
        constructionStep ctx xy b w1
      else completedStep ctx xy b w1

/-- `tickTiles` (Update.ts:226-246): process the building tiles in the
sorted order. -/
def tickTilesAll (ctx : Ctx) (w : World) : World :=
  (tickTilesOrder ctx w).foldl (fun wa p => tickTile ctx p.1 wa) w

/-- `HOUR` of `Helper.ts`, in milliseconds. -/
def HOURms : Nat := 3600000

/-- `getPriceId()` (Update.ts:666-668): `Math.floor(Date.now() / HOUR)`,
the wall-clock hour bucket — a hidden input of the tick. -/
def getPriceId (now : Nat) : Nat := now / HOURms

/-- The deterministic core of `tickEverySecond(gs, offline)`
(Update.ts:112-155) with the wall-clock reading made an explicit
argument: swap the double-buffered tick data, run the multiplier
accumulation phase, rotate prices, advance transportation, process the
tiles, record happiness, deposit worker science into the headquarters
and advance the tick counter. The non-offline notification, save and
heartbeat calls are fire-and-forget external collaborators with no
effect on the `GameState`. -/
def advanceCore (ctx : Ctx) (w0 : World) (priceId : Nat) : World :=
  let w := { w0 with cur := w0.nxt, nxt := TickData.empty, used := fun _ => 0 }
  let w := { w with nxt := ctx.multPhase w w.nxt }
  let w := tickPriceAll ctx priceId w
  let w := tickTransportationsAll ctx w
  let w := tickTilesAll ctx w
  let w := { w with nxt := { w.nxt with happiness := ctx.happinessOf w } }
  let w :=
    match w.tiles ctx.hqXy with
    | some hq =>
        w.setTile ctx.hqXy
          { hq with resources := hq.resources.sadd ScienceRes (ctx.scienceOf w) }
    | none => w
  { w with tick := w.tick + 1 }

/-- `tickEverySecond` as a function of the game state and the wall clock. -/
def advance (ctx : Ctx) (w : World) (now : Nat) : World :=
  advanceCore ctx w (getPriceId now)

/-- An offline catch-up run: the given number of elapsed ticks, each
reading the same wall clock. -/
def advanceIter (ctx : Ctx) (w : World) : Nat → Nat → World
  | 0, _ => w
  | n + 1, now => advanceIter ctx (advance ctx w now) n now

/-!
### Claim C1

`tickEverySecond` is not a function of the `GameState` and elapsed-tick
count alone: `tickPrice` reads the wall clock through `getPriceId()`
(Update.ts:666-668, 675) and stores the bucket into
`gs.lastPriceUpdated`, and market pairings are seeded by that bucket.
Two runs from identical state at different wall-clock hours produce
different states.
-/

/-- C1, counterexample: two runs of the tick from the identical empty
state and the same elapsed-tick count (one tick), differing only in the
hidden wall-clock reading, produce different `GameState`s — already the
stored `lastPriceUpdated` bucket differs. -/
theorem c1_counterexample :
    (advance baseCtx emptyWorld 0).lastPriceUpdated = 0 ∧
    (advance baseCtx emptyWorld HOURms).lastPriceUpdated = 1 ∧
    advance baseCtx emptyWorld 0 ≠ advance baseCtx emptyWorld HOURms := by
  have h0 : (advance baseCtx emptyWorld 0).lastPriceUpdated = 0 := by
    norm_num [advance, advanceCore, getPriceId, HOURms, tickPriceAll, tickTransportationsAll,
      tickTilesAll, tickTilesOrder, buildingTiles, tickPriceBuilding, emptyWorld, baseCtx,
      TickData.empty, List.mergeSort]
  have h1 : (advance baseCtx emptyWorld HOURms).lastPriceUpdated = 1 := by
    norm_num [advance, advanceCore, getPriceId, HOURms, tickPriceAll, tickTransportationsAll,
      tickTilesAll, tickTilesOrder, buildingTiles, tickPriceBuilding, emptyWorld, baseCtx,
      TickData.empty, List.mergeSort]
  refine ⟨h0, h1, fun h => ?_⟩
  rw [h, h1] at h0
  exact absurd h0 (by decide)

/-- C1, amended: determinism holds relative to the wall clock as well —
for identical `GameState`, identical elapsed-tick count AND identical
wall-clock hour bucket, two independent runs of the tick produce
identical resulting `GameState`s (hence identical snapshots, which the
state carries in its buffers). -/
theorem c1_amended (ctx : Ctx) (w : World) (n t1 t2 : Nat)
    (h : getPriceId t1 = getPriceId t2) :
    advanceIter ctx w n t1 = advanceIter ctx w n t2 := by
  induction n generalizing w with
  | zero => rfl
  | succ k ih =>
    rw [advanceIter, advanceIter, advance, advance, h]
    exact ih (advanceCore ctx w (getPriceId t2))

/-- C1, witness: two independent two-tick offline runs reading clocks 30
and 40 milliseconds (the same hour bucket) coincide. -/
theorem c1_witness :
    advanceIter baseCtx emptyWorld 2 30 = advanceIter baseCtx emptyWorld 2 40 :=
  c1_amended baseCtx emptyWorld 2 30 40 (by decide)

/-!
### Claim C9: lifecycle machinery

Everything the tick does outside the explicit lifecycle points of
`tickTile` (Update.ts:257-261 and 288-299) only touches ledgers, queues,
pools, snapshot buffers, market fields or electrification — never a
building's `status`, `level` or `desiredLevel`.
-/

/-- The lifecycle fields of a building. -/
def lifecycle (b : Building) : BStatus × Nat × Nat := (b.status, b.level, b.desiredLevel)

/-- Lifecycle preservation between worlds: every tile keeps its
building's lifecycle fields (and its presence). -/
def presLife (w w2 : World) : Prop :=
  ∀ y, (w2.tiles y).map lifecycle = (w.tiles y).map lifecycle

theorem presLife_refl (w : World) : presLife w w := fun _ => rfl

theorem presLife_trans {a b c : World} (h1 : presLife a b) (h2 : presLife b c) :
    presLife a c := fun y => (h2 y).trans (h1 y)

/-- Worlds with identical tile maps are lifecycle-equivalent. -/
theorem presLife_of_tiles_eq {w w2 : World} (h : w2.tiles = w.tiles) : presLife w w2 :=
  fun y => by rw [h]

/-- `presLife_of_tiles_eq` with the target world explicit. -/
theorem presLife_of_tiles_eqx (w w2 : World) (h : w2.tiles = w.tiles) : presLife w w2 :=
  presLife_of_tiles_eq h

/-- Replacing a building by one with the same lifecycle preserves. -/
theorem presLife_setTile (w : World) (xy : XY) (b b2 : Building)
    (hb : w.tiles xy = some b) (hl : lifecycle b2 = lifecycle b) :
    presLife w (w.setTile xy b2) := by
  intro y
  have ht : (w.setTile xy b2).tiles y = if y = xy then some b2 else w.tiles y := rfl
  rw [ht]
  by_cases hy : y = xy
  · rw [if_pos hy, hy, hb]
    simpa using hl
  · rw [if_neg hy]

/-- Committing a transport after a ledger-only debit preserves every
building's lifecycle. -/
theorem presLife_addT_setTile (ctx : Ctx) (res : Res) (amount : ℚ) (fuel : Res)
    (fuelAmount : ℚ) (fromXy toXy : XY) (w : World) (b b2 : Building)
    (hb : w.tiles fromXy = some b) (hl : lifecycle b2 = lifecycle b) :
    presLife w
      (addTransportation ctx res amount fuel fuelAmount fromXy toXy (w.setTile fromXy b2)) :=
  presLife_trans (presLife_setTile w fromXy b b2 hb hl) (presLife_of_tiles_eq rfl)

/-- A router candidate step preserves every building's lifecycle. -/
theorem transportStep_pres (ctx : Ctx) (res : Res) (workerCapacity : ℚ)
    (targetXy fromXy : XY) (amountLeft : ℚ) (w : World) :
    presLife w (transportStep ctx res workerCapacity targetXy fromXy amountLeft w).world := by
  rw [transportStep]
  cases hb : w.tiles fromXy with
  | none => exact presLife_refl w
  | some building =>
    dsimp only
    split_ifs <;>
      first
      | exact presLife_refl w
      | (dsimp only [RouteStep.world]
         exact presLife_addT_setTile ctx res _ Worker _ fromXy targetXy w building _ hb rfl)

/-- The router loop preserves every building's lifecycle. -/
theorem transportLoop_pres (ctx : Ctx) (res : Res) (workerCapacity : ℚ) (targetXy : XY)
    (sources : List XY) :
    ∀ (amountLeft : ℚ) (w : World),
      presLife w (transportLoop ctx res workerCapacity targetXy sources amountLeft w) := by
  induction sources with
  | nil => exact fun _ w => presLife_refl w
  | cons fromXy rest ih =>
    intro amountLeft w
    have hstep := transportStep_pres ctx res workerCapacity targetXy fromXy amountLeft w
    rw [transportLoop]
    cases hs : transportStep ctx res workerCapacity targetXy fromXy amountLeft w with
    | next a w2 =>
      rw [hs] at hstep
      exact presLife_trans hstep (ih a w2)
    | done w2 =>
      rw [hs] at hstep
      exact hstep

/-- `transportResource` preserves every building's lifecycle. -/
theorem transportResource_pres (ctx : Ctx) (res : Res) (amount workerCapacity : ℚ)
    (targetXy : XY) (w : World) :
    presLife w (transportResource ctx res amount workerCapacity targetXy w) := by
  rw [transportResource]
  split_ifs
  · exact presLife_refl w
  · exact transportLoop_pres ctx res workerCapacity targetXy _ amount w

/-- The construction cost scan preserves every building's lifecycle. -/
theorem scanCosts_pres (ctx : Ctx) (xy : XY) (building : Building) (cost : List (Res × ℚ)) :
    ∀ (w : World) (completed : Bool),
      presLife w (scanCosts ctx xy building cost w completed).1 := by
  induction cost with
  | nil => exact fun w _ => presLife_refl w
  | cons p rest ih =>
    intro w completed
    obtain ⟨res, amount⟩ := p
    rw [scanCosts]
    dsimp only
    split_ifs with h1 h2 h3
    · exact ih w completed
    · exact ih w false
    · exact presLife_trans (presLife_of_tiles_eq rfl)
        (transportResource_pres ctx res _ _ xy _)
    · exact presLife_trans (presLife_of_tiles_eq rfl) (ih _ false)

/-- The input transport phase preserves every building's lifecycle. -/
theorem inputTransportPhase_pres (ctx : Ctx) (xy : XY) (iwc total used : ℚ)
    (input : Ledger) :
    ∀ (ht : Bool) (w : World),
      presLife w (inputTransportPhase ctx xy iwc total used input ht w).1 := by
  induction input with
  | nil => exact fun _ w => presLife_refl w
  | cons p rest ih =>
    intro ht w
    obtain ⟨res, val⟩ := p
    rw [inputTransportPhase]
    cases hb : w.tiles xy with
    | none => exact ih ht w
    | some building =>
      dsimp only
      split_ifs
      · exact ih ht w
      · exact ih ht w
      · exact ih ht w
      · exact presLife_trans (transportResource_pres ctx res _ iwc xy w) (ih true _)

/-- The world carried by an autopilot inner-loop result. -/
def APStep.world : APStep → World
  | .ret w => w
  | .fall _ _ w => w

/-- The autopilot inner loop preserves every building's lifecycle. -/
theorem autopilotInner_pres (ctx : Ctx) (xy fromXy : XY) (tc : ℚ) (cands : List Res) :
    ∀ (capacity : ℚ) (ht : Bool) (w : World),
      presLife w (autopilotInner ctx xy fromXy tc cands capacity ht w).world := by
  induction cands with
  | nil => exact fun _ _ w => presLife_refl w
  | cons candidate rest ih =>
    intro capacity ht w
    rw [autopilotInner]
    cases hb : w.tiles fromXy with
    | none => exact presLife_refl w
    | some building =>
      dsimp only
      have hpres : ∀ am fa : ℚ,
          presLife w (addTransportation ctx candidate am Worker fa fromXy xy
            ((w.useWorkers Worker fa).setTile fromXy
              { building with resources := building.resources.sadd candidate (-am) })) := by
        intro am fa
        refine presLife_trans (presLife_of_tiles_eqx _ (w.useWorkers Worker fa) rfl) ?_
        exact presLife_addT_setTile ctx candidate am Worker fa fromXy xy
          (w.useWorkers Worker fa) building _ hb rfl
      split_ifs
      all_goals
        first
        | (dsimp only [APStep.world]
           exact hpres _ _)
        | exact presLife_trans (hpres _ _) (ih _ true _)

/-- The autopilot outer loop preserves every building's lifecycle. -/
theorem autopilotOuter_pres (ctx : Ctx) (xy : XY) (tc : ℚ) (sources : List XY) :
    ∀ (capacity : ℚ) (ht : Bool) (w : World),
      presLife w (autopilotOuter ctx xy tc sources capacity ht w).2 := by
  induction sources with
  | nil => exact fun _ _ w => presLife_refl w
  | cons fromXy rest ih =>
    intro capacity ht w
    rw [autopilotOuter]
    cases hb : w.tiles fromXy with
    | none => exact ih capacity ht w
    | some building =>
      dsimp only
      split_ifs
      · exact ih capacity ht w
      · have hinner := autopilotInner_pres ctx xy fromXy tc
          (autopilotCandidates ctx building) capacity ht w
        cases hz : autopilotInner ctx xy fromXy tc
            (autopilotCandidates ctx building) capacity ht w with
        | ret w2 =>
          rw [hz] at hinner
          exact hinner
        | fall cap2 ht2 w2 =>
          rw [hz] at hinner
          exact presLife_trans hinner (ih cap2 ht2 w2)

/-- The warehouse autopilot preserves every building's lifecycle. -/
theorem tickWarehouseAutopilot_pres (ctx : Ctx) (warehouse : Building) (xy : XY) (w : World) :
    presLife w (tickWarehouseAutopilot ctx warehouse xy w).2 := by
  rw [tickWarehouseAutopilot]
  dsimp only
  split_ifs
  · exact presLife_refl w
  · exact autopilotOuter_pres ctx xy _ _ _ false w
  · exact presLife_refl w
  · exact autopilotOuter_pres ctx xy _ _ _ false w

/-- The market trading loop preserves every building's lifecycle. -/
theorem marketSells_pres (ctx : Ctx) (xy : XY) (total used : ℚ) (sells : List Res) :
    ∀ (totalBought : ℚ) (w : World),
      presLife w (marketSells ctx xy total used sells totalBought w).1 := by
  induction sells with
  | nil => exact fun _ w => presLife_refl w
  | cons res rest ih =>
    intro totalBought w
    rw [marketSells]
    cases hb : w.tiles xy with
    | none => exact ih totalBought w
    | some building =>
      dsimp only
      have hpres : ∀ led : Ledger,
          presLife w (w.setTile xy { building with resources := led }) := fun led =>
        presLife_setTile w xy building { building with resources := led } hb rfl
      split_ifs
      · exact presLife_trans (presLife_of_tiles_eq rfl) (ih totalBought _)
      · exact presLife_trans (hpres _) (ih _ _)

/-- Electrification preserves every building's lifecycle. -/
theorem electrify_pres (ctx : Ctx) (xy : XY) (w : World) :
    presLife w (electrify ctx xy w) := by
  rw [electrify]
  cases hb : w.tiles xy with
  | none => exact presLife_refl w
  | some b =>
    dsimp only
    have hpres : presLife w (w.setTile xy
        { b with electrification := min b.electrification b.level }) :=
      presLife_setTile w xy b { b with electrification := min b.electrification b.level } hb rfl
    split_ifs
    · exact presLife_trans hpres (presLife_of_tiles_eq rfl)
    · exact hpres
    · exact presLife_refl w

/-- The output-crediting loop preserves every building's lifecycle. -/
theorem creditOutputs_pres (ctx : Ctx) (xy : XY) (output : Ledger) :
    ∀ w : World, presLife w (creditOutputs ctx xy output w) := by
  induction output with
  | nil => exact fun w => presLife_refl w
  | cons p rest ih =>
    intro w
    obtain ⟨res, v⟩ := p
    rw [creditOutputs]
    split_ifs
    · cases hb : w.tiles ctx.hqXy with
      | none => exact ih w
      | some hq =>
        exact presLife_trans
          (presLife_setTile w ctx.hqXy hq
            { hq with resources := hq.resources.sadd res v } hb rfl) (ih _)
    · cases hb : w.tiles xy with
      | none => exact ih w
      | some b =>
        exact presLife_trans
          (presLife_setTile w xy b
            { b with resources := b.resources.sadd res v } hb rfl) (ih _)
    · exact presLife_trans (presLife_of_tiles_eq rfl) (ih _)

/-- Standard production preserves every building's lifecycle. -/
theorem productionStep_pres (ctx : Ctx) (xy : XY) (input output : Ledger)
    (workerOut total used : ℚ) (w : World) :
    presLife w (productionStep ctx xy input output workerOut total used w) := by
  rw [productionStep]
  cases hb : w.tiles xy with
  | none => exact presLife_refl w
  | some building =>
    dsimp only
    have hfall : ∀ q : ℚ, presLife w
        (((w.useWorkers Worker q).setTile xy
          { building with resources := building.resources.deduct input }).addNextWorkers
            (output.filter (fun p => ¬ ctx.canStore p.1))) := by
      intro q
      refine presLife_trans (presLife_of_tiles_eqx _ (w.useWorkers Worker q) rfl) ?_
      refine presLife_trans (presLife_setTile (w.useWorkers Worker q) xy building
        { building with resources := building.resources.deduct input } hb rfl) ?_
      exact presLife_of_tiles_eq rfl
    split_ifs
    all_goals
      first
      | exact presLife_of_tiles_eq rfl
      | exact presLife_trans (hfall _) (presLife_of_tiles_eq rfl)
      | exact hfall _
      | (refine presLife_trans (electrify_pres ctx xy w) ?_
         refine presLife_trans (presLife_of_tiles_eqx
           _ ((electrify ctx xy w).useWorkers Worker workerOut) rfl) ?_
         cases hb2 : ((electrify ctx xy w).useWorkers Worker workerOut).tiles xy with
         | none => exact creditOutputs_pres ctx xy output _
         | some b2 =>
           refine presLife_trans ?_ (creditOutputs_pres ctx xy output _)
           exact presLife_setTile _ xy b2
             { b2 with resources := b2.resources.deduct input } hb2 rfl)

/-- Folds that never touch the tile map keep it intact. -/
theorem foldl_tiles_eq {α : Type} (f : World → α → World)
    (hf : ∀ w a, (f w a).tiles = w.tiles) :
    ∀ (l : List α) (w : World), (l.foldl f w).tiles = w.tiles := by
  intro l
  induction l with
  | nil => exact fun w => rfl
  | cons a rest ih =>
    intro w
    rw [List.foldl_cons, ih, hf]

/-- The pre-production bookkeeping never touches the tile map. -/
theorem registerTile_tiles (ctx : Ctx) (xy : XY) (b : Building) (w : World) :
    (registerTile ctx xy b w).tiles = w.tiles := by
  rw [registerTile]
  refine (foldl_tiles_eq _ ?_ b.resources _).trans ?_
  · intro w2 a
    split_ifs <;> rfl
  · split_ifs <;> rfl

/-- Recording a reason preserves every building's lifecycle. -/
theorem presLife_setReason (w : World) (xy : XY) (r : Reason) :
    presLife w (w.setReason xy r) := presLife_of_tiles_eq rfl

/-- The completed-building branch preserves every building's lifecycle. -/
theorem completedStep_pres (ctx : Ctx) (xy : XY) (b : Building) (w : World) :
    presLife w (completedStep ctx xy b w) := by
  rw [completedStep]
  dsimp only
  have hreg : presLife w (registerTile ctx xy b w) :=
    presLife_of_tiles_eq (registerTile_tiles ctx xy b w)
  split_ifs
  all_goals try dsimp only
  all_goals refine presLife_trans hreg ?_
  all_goals
    first
    | exact presLife_of_tiles_eq rfl
    | (refine presLife_trans (inputTransportPhase_pres ctx xy
          (ctx.workerMult (registerTile ctx xy b w) xy)
          (ctx.storageFor (registerTile ctx xy b w) xy).1
          (ctx.storageFor (registerTile ctx xy b w) xy).2
          (List.filter (fun p => ctx.canStore p.1)
            (ctx.buildingInput (registerTile ctx xy b w) xy))
          false (registerTile ctx xy b w)) ?_
       first
       | (refine presLife_trans (tickWarehouseAutopilot_pres ctx b xy _) ?_
          first
          | (refine presLife_trans (presLife_setReason _ xy Reason.NoActiveTransports) ?_
             first
             | exact marketSells_pres ctx xy _ _ _ 0 _
             | exact presLife_refl _
             | exact productionStep_pres ctx xy _ _ _ _ _ _)
          | exact marketSells_pres ctx xy _ _ _ 0 _
          | exact presLife_refl _
          | exact productionStep_pres ctx xy _ _ _ _ _ _)
       | (refine presLife_trans (presLife_setReason _ xy Reason.NoActiveTransports) ?_
          first
          | exact marketSells_pres ctx xy _ _ _ 0 _
          | exact presLife_refl _
          | exact productionStep_pres ctx xy _ _ _ _ _ _)
       | exact marketSells_pres ctx xy _ _ _ 0 _
       | exact presLife_refl _
       | exact productionStep_pres ctx xy _ _ _ _ _ _)

/-- A market price refresh preserves every building's lifecycle. -/
theorem tickPriceBuilding_pres (ctx : Ctx) (priceId : Nat) (force : Bool)
    (resources : List Res) (w : World) (xy : XY) :
    presLife w (tickPriceBuilding ctx priceId force resources w xy) := by
  rw [tickPriceBuilding]
  cases hb : w.tiles xy with
  | none => exact presLife_refl w
  | some building =>
    dsimp only
    cases hm : marketRefreshPairs ctx priceId xy resources building.availableResources with
    | some m =>
      split_ifs
      · exact presLife_setTile w xy building
          { building with availableResources := m, sellResources := [] } hb rfl
      · exact presLife_setTile w xy building
          { building with availableResources := m } hb rfl
      · exact presLife_setTile w xy building
          { building with sellResources := [] } hb rfl
      · exact presLife_setTile w xy building building hb rfl
      · exact presLife_refl w
    | none =>
      split_ifs
      · exact presLife_setTile w xy building
          { building with sellResources := [] } hb rfl
      · exact presLife_setTile w xy building building hb rfl
      · exact presLife_setTile w xy building
          { building with sellResources := [] } hb rfl
      · exact presLife_setTile w xy building building hb rfl
      · exact presLife_refl w

/-- The price rotation preserves every building's lifecycle. -/
theorem tickPriceAll_pres (ctx : Ctx) (priceId : Nat) (w0 : World) :
    presLife w0 (tickPriceAll ctx priceId w0) := by
  rw [tickPriceAll]
  have hfold : ∀ (l : List XY) (w : World),
      presLife w (l.foldl (tickPriceBuilding ctx priceId (w0.lastPriceUpdated ≠ priceId)
        (ctx.unlocked.filter (fun r => ctx.canPrice r && ctx.canStore r))) w) := by
    intro l
    induction l with
    | nil => exact fun w => presLife_refl w
    | cons xy rest ih =>
      intro w
      rw [List.foldl_cons]
      exact presLife_trans (tickPriceBuilding_pres ctx priceId _ _ w xy) (ih _)
  split_ifs
  · exact presLife_trans (presLife_of_tiles_eq rfl) (hfold _ _)
  · exact hfold _ _

/-- A queue filter pass preserves every building's lifecycle. -/
theorem stepQueue_pres (ctx : Ctx) (mah : Option (ℚ × ℚ)) (queue : List Transport) :
    ∀ w : World, presLife w (stepQueue ctx mah queue w).2 := by
  induction queue with
  | nil => exact fun w => presLife_refl w
  | cons t rest ih =>
    intro w
    rw [stepQueue]
    dsimp only
    have htiles : (tickTransportation ctx mah t w).2.tiles = w.tiles :=
      (tickTransportation_frame ctx mah t w).2.2.2.2
    split_ifs
    · cases hb : (tickTransportation ctx mah t w).2.tiles
          (tickTransportation ctx mah t w).1.toXy with
      | none => exact presLife_trans (presLife_of_tiles_eq htiles) (ih _)
      | some bdest =>
        refine presLife_trans (presLife_of_tiles_eq htiles) ?_
        refine presLife_trans (presLife_setTile (tickTransportation ctx mah t w).2
          (tickTransportation ctx mah t w).1.toXy bdest
          { bdest with resources := (bdest.resources.sadd
              (tickTransportation ctx mah t w).1.resource
              (tickTransportation ctx mah t w).1.amount) } hb rfl) (ih _)
    · exact presLife_trans (presLife_of_tiles_eq htiles) (ih _)

/-- Transportation advancement preserves every building's lifecycle. -/
theorem tickTransportationsAll_pres (ctx : Ctx) (w0 : World) :
    presLife w0 (tickTransportationsAll ctx w0) := by
  rw [tickTransportationsAll]
  refine presLife_trans ?_ (presLife_of_tiles_eq rfl)
  have hfold : ∀ (l : List (XY × List Transport)) (a : List (XY × List Transport) × World),
      presLife a.2 ((l.foldl
        (fun (acc : List (XY × List Transport) × World) p =>
          let r := stepQueue ctx (w0.cur.mahXy.map ctx.posOf) p.2 acc.2
          (acc.1 ++ [(p.1, r.1)], r.2)) a).2) := by
    intro l
    induction l with
    | nil => exact fun a => presLife_refl a.2
    | cons p rest ih =>
      intro a
      rw [List.foldl_cons]
      exact presLife_trans (stepQueue_pres ctx _ p.2 a.2) (ih _)
  exact hfold w0.transportation ([], w0)

/-!
### Claim C9: the per-tick lifecycle step relation

`tickTile` moves a building's lifecycle along exactly these edges
(Update.ts:257-261 and 288-303): the status may stay put; `building`
completes into `completed`; `building` is forced into `upgrading` the
moment `desiredLevel` exceeds `level` (the transition the claim omits);
`upgrading` completes into `completed` only once the level has reached
the desired level; `completed` is forced into `upgrading` the same way.
The level never decreases.
-/

/-- The per-tick transition relation on a building's lifecycle. -/
def lifecycleStep (b b2 : Building) : Prop :=
  b.level ≤ b2.level ∧
  (b2.status = b.status ∨
   (b.status = BStatus.building ∧ b2.status = BStatus.completed) ∨
   (b.status = BStatus.building ∧ b2.status = BStatus.upgrading ∧
     b.level < b.desiredLevel) ∨
   (b.status = BStatus.upgrading ∧ b2.status = BStatus.completed ∧
     b2.desiredLevel ≤ b2.level) ∨
   (b.status = BStatus.completed ∧ b2.status = BStatus.upgrading ∧
     b.level < b.desiredLevel))

/-- The transition relation lifted to an optional tile: presence is
preserved and present buildings step. -/
def lifeOpt : Option Building → Option Building → Prop
  | none, none => True
  | some b, some b2 => lifecycleStep b b2
  | _, _ => False

/-- Worlds a tick apart: every tile's building steps along the relation. -/
def lifeStep (w w2 : World) : Prop := ∀ xy, lifeOpt (w.tiles xy) (w2.tiles xy)

theorem lifecycle_eq_iff (a b : Building) :
    lifecycle a = lifecycle b ↔
      a.status = b.status ∧ a.level = b.level ∧ a.desiredLevel = b.desiredLevel := by
  simp [lifecycle, Prod.ext_iff]

theorem lifecycleStep_refl (b : Building) : lifecycleStep b b :=
  ⟨Nat.le_refl _, Or.inl rfl⟩

/-- The relation only reads the lifecycle fields of either side. -/
theorem lifecycleStep_congr {b b2 a a2 : Building} (h : lifecycleStep b b2)
    (ha : lifecycle a = lifecycle b) (ha2 : lifecycle a2 = lifecycle b2) :
    lifecycleStep a a2 := by
  obtain ⟨hs, hl, hd⟩ := (lifecycle_eq_iff a b).mp ha
  obtain ⟨hs2, hl2, hd2⟩ := (lifecycle_eq_iff a2 b2).mp ha2
  simp only [lifecycleStep, hs, hl, hd, hs2, hl2, hd2]
  exact h

/-- Any status that is already `upgrading` after a tick came from a
non-paused status with a pending level target (or was upgrading). -/
theorem lifecycleStep_target_up {b0 b2 : Building} (hp : b0.status ≠ BStatus.paused)
    (hs : b2.status = BStatus.upgrading) (hl : b0.level ≤ b2.level)
    (hf : b0.level < b0.desiredLevel) : lifecycleStep b0 b2 := by
  refine ⟨hl, ?_⟩
  cases h0 : b0.status with
  | building => exact Or.inr (Or.inr (Or.inl ⟨rfl, hs, hf⟩))
  | upgrading => exact Or.inl hs
  | completed => exact Or.inr (Or.inr (Or.inr (Or.inr ⟨rfl, hs, hf⟩)))
  | paused => exact absurd h0 hp

/-- Any non-paused status may finish into `completed` provided the level
target is met. -/
theorem lifecycleStep_target_done {b0 b2 : Building} (hp : b0.status ≠ BStatus.paused)
    (hs : b2.status = BStatus.completed) (hl : b0.level ≤ b2.level)
    (hd : b2.desiredLevel ≤ b2.level) : lifecycleStep b0 b2 := by
  refine ⟨hl, ?_⟩
  cases h0 : b0.status with
  | building => exact Or.inr (Or.inl ⟨rfl, hs⟩)
  | upgrading => exact Or.inr (Or.inr (Or.inr (Or.inl ⟨rfl, hs, hd⟩)))
  | completed => exact Or.inl hs
  | paused => exact absurd h0 hp

theorem lifeOpt_refl (o : Option Building) : lifeOpt o o := by
  cases o with
  | none => trivial
  | some b => exact lifecycleStep_refl b

/-- The lifted relation only reads the lifecycle fields of either side. -/
theorem lifeOpt_congr {o o2 o0 o3 : Option Building} (h : lifeOpt o o2)
    (hl : o0.map lifecycle = o.map lifecycle) (hr : o3.map lifecycle = o2.map lifecycle) :
    lifeOpt o0 o3 := by
  cases o with
  | none =>
    cases o2 with
    | none =>
      have h0 : o0 = none := by simpa using hl
      have h3 : o3 = none := by simpa using hr
      rw [h0, h3]
      trivial
    | some b2 => exact h.elim
  | some b =>
    cases o2 with
    | none => exact h.elim
    | some b2 =>
      have hl2 : o0.map lifecycle = some (lifecycle b) := hl
      have hr2 : o3.map lifecycle = some (lifecycle b2) := hr
      rcases Option.map_eq_some'.mp hl2 with ⟨a, ha, hac⟩
      rcases Option.map_eq_some'.mp hr2 with ⟨a2, ha2, hac2⟩
      rw [ha, ha2]
      exact lifecycleStep_congr h hac hac2

theorem lifeStep_presL {w a c : World} (h1 : presLife w a) (h2 : lifeStep a c) :
    lifeStep w c := fun xy => lifeOpt_congr (h2 xy) (h1 xy).symm rfl

theorem lifeStep_presR {w a c : World} (h1 : lifeStep w a) (h2 : presLife a c) :
    lifeStep w c := fun xy => lifeOpt_congr (h1 xy) rfl (h2 xy)

theorem World.setTile_tiles_self (w : World) (xy : XY) (b : Building) :
    (w.setTile xy b).tiles xy = some b := by
  simp [World.setTile]

theorem World.setTile_tiles_ne (w : World) (xy : XY) (b : Building) (y : XY)
    (h : y ≠ xy) : (w.setTile xy b).tiles y = w.tiles y := by
  simp [World.setTile, h]

theorem applyDefaults_status (b : Building) (d : Option BuildingDefaults) :
    (applyDefaults b d).status = b.status := by cases d <;> rfl

theorem applyDefaults_level (b : Building) (d : Option BuildingDefaults) :
    (applyDefaults b d).level = b.level := by cases d <;> rfl

theorem applyDefaults_desired (b : Building) (d : Option BuildingDefaults) :
    (applyDefaults b d).desiredLevel = b.desiredLevel := by cases d <;> rfl

/-- The construction scan never rewrites a tile other than its own. -/
theorem constructionStep_other (ctx : Ctx) (xy : XY) (b : Building) (w : World)
    (z : XY) (hz : z ≠ xy) :
    ((constructionStep ctx xy b w).tiles z).map lifecycle =
      (w.tiles z).map lifecycle := by
  have hp := scanCosts_pres ctx xy b (ctx.buildingCost b) w true
  rw [constructionStep]
  dsimp only
  split_ifs
  · cases hm : (scanCosts ctx xy b (ctx.buildingCost b) w true).1.tiles xy with
    | none => exact hp z
    | some bc0 =>
      dsimp only
      rw [World.setTile_tiles_ne _ _ _ _ hz]
      exact hp z
  · exact hp z

/-- On its own tile, the construction branch either keeps the lifecycle
(costs outstanding) or raises the level by one, keeps the desired level,
and transitions `building` to `completed`, `upgrading` to `completed`
once the desired level is met, or keeps the status. -/
theorem constructionStep_self (ctx : Ctx) (xy : XY) (b : Building) (w : World)
    (hb : w.tiles xy = some b) :
    ((constructionStep ctx xy b w).tiles xy).map lifecycle = some (lifecycle b) ∨
    (∃ b2 : Building, (constructionStep ctx xy b w).tiles xy = some b2 ∧
      b2.level = b.level + 1 ∧ b2.desiredLevel = b.desiredLevel ∧
      ((b.status = BStatus.building ∧ b2.status = BStatus.completed) ∨
       (b.status = BStatus.upgrading ∧ b2.status = BStatus.completed ∧
         b2.desiredLevel ≤ b2.level) ∨
       b2.status = b.status)) := by
  have hp := scanCosts_pres ctx xy b (ctx.buildingCost b) w true
  have hpx : ((scanCosts ctx xy b (ctx.buildingCost b) w true).1.tiles xy).map lifecycle =
      some (lifecycle b) := by rw [hp xy, hb]; rfl
  rw [constructionStep]
  dsimp only
  split_ifs with hzc
  · cases hm : (scanCosts ctx xy b (ctx.buildingCost b) w true).1.tiles xy with
    | none => rw [hm] at hpx; exact absurd hpx (by simp)
    | some bc0 =>
      rw [hm] at hpx
      have hlc : lifecycle bc0 = lifecycle b := by simpa using hpx
      obtain ⟨hst, hlv, hdl⟩ := (lifecycle_eq_iff bc0 b).mp hlc
      dsimp only
      right
      split_ifs with h1 h2
      · refine ⟨_, World.setTile_tiles_self _ _ _, ?_, ?_, ?_⟩
        · simp only [applyDefaults_level]
          try dsimp only
          rw [hlv]
        · simp only [applyDefaults_desired]
          try dsimp only
          rw [hdl]
        · refine Or.inl ⟨?_, ?_⟩
          · try dsimp only at h1
            rw [← hst]
            exact h1
          · simp only [applyDefaults_status]
      · refine ⟨_, World.setTile_tiles_self _ _ _, ?_, ?_, ?_⟩
        · try dsimp only
          rw [hlv]
        · try dsimp only
          rw [hdl]
        · refine Or.inr (Or.inl ⟨?_, rfl, ?_⟩)
          · try dsimp only at h2
            rw [← hst]
            exact h2.1
          · try dsimp only at h2
            try dsimp only
            exact h2.2
      · refine ⟨_, World.setTile_tiles_self _ _ _, ?_, ?_, ?_⟩
        · try dsimp only
          rw [hlv]
        · try dsimp only
          rw [hdl]
        · refine Or.inr (Or.inr ?_)
          try dsimp only
          exact hst
  · left
    exact hpx

/-- `tickTile` never rewrites a tile other than its own. -/
theorem tickTile_other (ctx : Ctx) (y : XY) (w : World) (xy : XY) (hne : xy ≠ y) :
    ((tickTile ctx y w).tiles xy).map lifecycle = (w.tiles xy).map lifecycle := by
  rw [tickTile]
  cases hb : w.tiles y with
  | none => rfl
  | some b0 =>
    dsimp only
    split_ifs
    all_goals
      first
      | rfl
      | exact (constructionStep_other ctx y _ _ xy hne).trans
          (congrArg (Option.map lifecycle) (World.setTile_tiles_ne _ _ _ _ hne))
      | exact ((completedStep_pres ctx y _ _) xy).trans
          (congrArg (Option.map lifecycle) (World.setTile_tiles_ne _ _ _ _ hne))

/-- On its own tile, `tickTile` steps the building along the lifecycle
relation. -/
theorem tickTile_self (ctx : Ctx) (xy : XY) (w : World) :
    lifeOpt (w.tiles xy) ((tickTile ctx xy w).tiles xy) := by
  rw [tickTile]
  cases hb : w.tiles xy with
  | none =>
    dsimp only
    rw [hb]
    trivial
  | some b0 =>
    dsimp only
    by_cases h1 : b0.status = BStatus.paused
    · rw [if_pos h1, hb]
      exact lifecycleStep_refl b0
    · rw [if_neg h1]
      by_cases h2 : ctx.isNaturalWonderB b0.type = true ∧ w.explored xy = false
      · rw [if_pos h2, hb]
        exact lifecycleStep_refl b0
      · rw [if_neg h2]
        by_cases hf : b0.level < b0.desiredLevel
        · rw [if_pos hf]
          have hcond : ({ b0 with status := BStatus.upgrading } : Building).status =
                BStatus.building ∨
              ({ b0 with status := BStatus.upgrading } : Building).status =
                BStatus.upgrading := Or.inr rfl
          rw [if_pos hcond]
          · have hb1 : (w.setTile xy { b0 with status := BStatus.upgrading }).tiles xy =
                some { b0 with status := BStatus.upgrading } :=
              World.setTile_tiles_self _ _ _
            rcases constructionStep_self ctx xy _ _ hb1 with hL | ⟨b2, hm, hlev, hdes, hdj⟩
            · rcases Option.map_eq_some'.mp hL with ⟨b2, hm, hlc⟩
              rw [hm]
              obtain ⟨hst, hlv, hdl⟩ :=
                (lifecycle_eq_iff b2 { b0 with status := BStatus.upgrading }).mp hlc
              dsimp only at hst hlv hdl
              exact lifecycleStep_target_up h1 hst (Nat.le_of_eq hlv.symm) hf
            · rw [hm]
              dsimp only at hlev hdes
              rcases hdj with hx | hx | hx
              · exact absurd hx.1 (by simp)
              · exact lifecycleStep_target_done h1 hx.2.1
                  (by rw [hlev]; exact Nat.le_succ _) hx.2.2
              · exact lifecycleStep_target_up h1 hx
                  (by rw [hlev]; exact Nat.le_succ _) hf
        · rw [if_neg hf]
          by_cases hs : b0.status = BStatus.building ∨ b0.status = BStatus.upgrading
          · rw [if_pos (show ({ b0 with desiredLevel := b0.level } : Building).status =
                  BStatus.building ∨
                ({ b0 with desiredLevel := b0.level } : Building).status =
                  BStatus.upgrading from hs)]
            have hb1 : (w.setTile xy { b0 with desiredLevel := b0.level }).tiles xy =
                some { b0 with desiredLevel := b0.level } :=
              World.setTile_tiles_self _ _ _
            rcases constructionStep_self ctx xy _ _ hb1 with hL | ⟨b2, hm, hlev, hdes, hdj⟩
            · rcases Option.map_eq_some'.mp hL with ⟨b2, hm, hlc⟩
              rw [hm]
              obtain ⟨hst, hlv, hdl⟩ :=
                (lifecycle_eq_iff b2 { b0 with desiredLevel := b0.level }).mp hlc
              dsimp only at hst hlv hdl
              exact ⟨Nat.le_of_eq hlv.symm, Or.inl hst⟩
            · rw [hm]
              dsimp only at hlev hdes
              have hl2 : b0.level ≤ b2.level := by rw [hlev]; exact Nat.le_succ _
              rcases hdj with hx | hx | hx
              · exact ⟨hl2, Or.inr (Or.inl ⟨hx.1, hx.2⟩)⟩
              · exact lifecycleStep_target_done h1 hx.2.1 hl2 hx.2.2
              · exact ⟨hl2, Or.inl hx⟩
          · rw [if_neg (show ¬(({ b0 with desiredLevel := b0.level } : Building).status =
                  BStatus.building ∨
                ({ b0 with desiredLevel := b0.level } : Building).status =
                  BStatus.upgrading) from hs)]
            have hcp := completedStep_pres ctx xy { b0 with desiredLevel := b0.level }
              (w.setTile xy { b0 with desiredLevel := b0.level })
            have hx := hcp xy
            rw [World.setTile_tiles_self] at hx
            rcases Option.map_eq_some'.mp (hx.trans rfl) with ⟨b2, hm, hlc⟩
            rw [hm]
            obtain ⟨hst, hlv, hdl⟩ :=
              (lifecycle_eq_iff b2 { b0 with desiredLevel := b0.level }).mp hlc
            dsimp only at hst hlv hdl
            exact ⟨Nat.le_of_eq hlv.symm, Or.inl hst⟩

/-- A fold of `tickTile` over keys not containing `xy` keeps `xy`'s
lifecycle. -/
theorem tickFold_other (ctx : Ctx) :
    ∀ (l : List (XY × Building)) (w : World) (xy : XY), xy ∉ l.map Prod.fst →
      ((l.foldl (fun wa p => tickTile ctx p.1 wa) w).tiles xy).map lifecycle =
        (w.tiles xy).map lifecycle := by
  intro l
  induction l with
  | nil =>
    intro w xy _
    rfl
  | cons p rest ih =>
    intro w xy hmem
    rw [List.map_cons, List.mem_cons] at hmem
    push_neg at hmem
    rw [List.foldl_cons]
    exact (ih (tickTile ctx p.1 w) xy hmem.2).trans (tickTile_other ctx p.1 w xy hmem.1)

/-- A fold of `tickTile` over a duplicate-free key list steps every
building along the lifecycle relation. -/
theorem tickFold_life (ctx : Ctx) :
    ∀ (l : List (XY × Building)) (w : World), (l.map Prod.fst).Nodup →
      lifeStep w (l.foldl (fun wa p => tickTile ctx p.1 wa) w) := by
  intro l
  induction l with
  | nil =>
    intro w _ xy
    exact lifeOpt_refl _
  | cons p rest ih =>
    intro w hnd xy
    rw [List.map_cons, List.nodup_cons] at hnd
    rw [List.foldl_cons]
    by_cases hxy : xy = p.1
    · subst hxy
      exact lifeOpt_congr (tickTile_self ctx p.1 w) rfl
        (tickFold_other ctx rest (tickTile ctx p.1 w) p.1 hnd.1)
    · exact lifeOpt_congr (ih (tickTile ctx p.1 w) hnd.2 xy)
        (tickTile_other ctx p.1 w xy hxy).symm rfl

/-- The key projection of the building-tile list is duplicate-free when
the tile key list is. -/
theorem buildingTiles_keys_nodup (w : World) (hnd : w.tileKeys.Nodup) :
    ((buildingTiles w).map Prod.fst).Nodup := by
  rw [buildingTiles]
  have hgen : ∀ l : List XY, l.Nodup →
      ((l.filterMap (fun xy => (w.tiles xy).map (fun b => (xy, b)))).map Prod.fst).Nodup := by
    intro l
    induction l with
    | nil =>
      intro
      simp
    | cons x t ih =>
      intro h
      rw [List.nodup_cons] at h
      rw [List.filterMap_cons]
      cases hf : w.tiles x with
      | none =>
        simp only [hf, Option.map_none']
        exact ih h.2
      | some b =>
        simp only [hf, Option.map_some']
        rw [List.map_cons, List.nodup_cons]
        refine ⟨?_, ih h.2⟩
        intro hx
        rcases List.mem_map.mp hx with ⟨q, hq, hq1⟩
        rcases List.mem_filterMap.mp hq with ⟨a, ha, ha2⟩
        rcases Option.map_eq_some'.mp ha2 with ⟨b2, hb2, hb3⟩
        have : a = x := by rw [← hb3] at hq1; exact hq1
        exact h.1 (this ▸ ha)
  exact hgen w.tileKeys hnd

/-- Sorting keeps the key projection duplicate-free. -/
theorem tickTilesOrder_keys_nodup (ctx : Ctx) (w : World) (hnd : w.tileKeys.Nodup) :
    ((tickTilesOrder ctx w).map Prod.fst).Nodup := by
  rw [tickTilesOrder]
  exact ((List.mergeSort_perm (buildingTiles w) (tileLe ctx)).map Prod.fst).nodup_iff.mpr
    (buildingTiles_keys_nodup w hnd)

/-- Folding a tile-key-preserving step preserves the tile keys. -/
theorem foldl_tileKeys {α : Type} (f : World → α → World)
    (hf : ∀ w a, (f w a).tileKeys = w.tileKeys) :
    ∀ (l : List α) (w : World), (l.foldl f w).tileKeys = w.tileKeys := by
  intro l
  induction l with
  | nil =>
    intro w
    rfl
  | cons x t ih =>
    intro w
    rw [List.foldl_cons, ih, hf]

theorem tickPriceBuilding_tileKeys (ctx : Ctx) (priceId : Nat) (force : Bool)
    (resources : List Res) (w : World) (xy : XY) :
    (tickPriceBuilding ctx priceId force resources w xy).tileKeys = w.tileKeys := by
  rw [tickPriceBuilding]
  cases hb : w.tiles xy with
  | none => rfl
  | some b =>
    dsimp only
    split_ifs <;> rfl

theorem tickPriceAll_tileKeys (ctx : Ctx) (priceId : Nat) (w0 : World) :
    (tickPriceAll ctx priceId w0).tileKeys = w0.tileKeys := by
  rw [tickPriceAll]
  rw [foldl_tileKeys _ (fun w a => tickPriceBuilding_tileKeys ctx priceId _ _ w a)]
  split_ifs <;> rfl

theorem tickTransportation_tileKeys (ctx : Ctx) (mah : Option (ℚ × ℚ)) (t : Transport)
    (w : World) : (tickTransportation ctx mah t w).2.tileKeys = w.tileKeys := by
  simp only [tickTransportation]
  split_ifs <;> simp [World.useWorkers]

theorem stepQueue_tileKeys (ctx : Ctx) (mah : Option (ℚ × ℚ)) (queue : List Transport) :
    ∀ w : World, (stepQueue ctx mah queue w).2.tileKeys = w.tileKeys := by
  induction queue with
  | nil => exact fun w => rfl
  | cons t rest ih =>
    intro w
    rw [stepQueue]
    dsimp only
    split_ifs
    · cases hb : (tickTransportation ctx mah t w).2.tiles
          (tickTransportation ctx mah t w).1.toXy with
      | none => exact (ih _).trans (tickTransportation_tileKeys ctx mah t w)
      | some bdest => exact (ih _).trans (tickTransportation_tileKeys ctx mah t w)
    · exact (ih _).trans (tickTransportation_tileKeys ctx mah t w)

theorem tickTransportationsAll_tileKeys (ctx : Ctx) (w0 : World) :
    (tickTransportationsAll ctx w0).tileKeys = w0.tileKeys := by
  rw [tickTransportationsAll]
  have hfold : ∀ (l : List (XY × List Transport)) (a : List (XY × List Transport) × World),
      ((l.foldl
        (fun (acc : List (XY × List Transport) × World) p =>
          let r := stepQueue ctx (w0.cur.mahXy.map ctx.posOf) p.2 acc.2
          (acc.1 ++ [(p.1, r.1)], r.2)) a).2).tileKeys = a.2.tileKeys := by
    intro l
    induction l with
    | nil => exact fun a => rfl
    | cons p rest ih =>
      intro a
      rw [List.foldl_cons]
      exact (ih _).trans (stepQueue_tileKeys ctx _ p.2 a.2)
  exact hfold w0.transportation ([], w0)

/-- The tick pipeline up to and including the multiplier phase. -/
def advStage2 (ctx : Ctx) (w0 : World) : World :=
  let a := { w0 with cur := w0.nxt, nxt := TickData.empty, used := fun _ => 0 }
  { a with nxt := ctx.multPhase a a.nxt }

/-- The tick pipeline up to and including transportation advancement. -/
def advPriced (ctx : Ctx) (w0 : World) (priceId : Nat) : World :=
  tickTransportationsAll ctx (tickPriceAll ctx priceId (advStage2 ctx w0))

/-- The tick pipeline up to and including the tile pass. -/
def advTiled (ctx : Ctx) (w0 : World) (priceId : Nat) : World :=
  tickTilesAll ctx (advPriced ctx w0 priceId)

/-- `advanceCore` refactored around the tile pass. -/
theorem advanceCore_decomp (ctx : Ctx) (w0 : World) (priceId : Nat) :
    advanceCore ctx w0 priceId =
      (let v := advTiled ctx w0 priceId
       let v2 := { v with nxt := { v.nxt with happiness := ctx.happinessOf v } }
       let v3 :=
         match v2.tiles ctx.hqXy with
         | some hq =>
             v2.setTile ctx.hqXy
               { hq with resources := (hq.resources.sadd ScienceRes (ctx.scienceOf v2)) }
         | none => v2
       { v3 with tick := v3.tick + 1 }) := rfl

/-- The post-tile bookkeeping (happiness, headquarters science, tick
counter) preserves every building's lifecycle. -/
theorem advanceTail_pres (ctx : Ctx) (v : World) :
    presLife v
      (let v2 := { v with nxt := { v.nxt with happiness := ctx.happinessOf v } }
       let v3 :=
         match v2.tiles ctx.hqXy with
         | some hq =>
             v2.setTile ctx.hqXy
               { hq with resources := (hq.resources.sadd ScienceRes (ctx.scienceOf v2)) }
         | none => v2
       { v3 with tick := v3.tick + 1 }) := by
  intro y
  dsimp only
  cases hhq : v.tiles ctx.hqXy with
  | none => rfl
  | some hq =>
    dsimp only
    by_cases hy : y = ctx.hqXy
    · rw [hy, World.setTile_tiles_self, hhq]
      rfl
    · rw [World.setTile_tiles_ne _ _ _ _ hy]

/-- C9, amended: across one tick, with duplicate-free tile keys, every
building's level never decreases and its status steps only along the
edges `building` to `completed`, `building` to `upgrading` (the forced
upgrade of Update.ts:257-258 the claim omits), `upgrading` to
`completed` once the level reaches the desired level, and `completed` to
`upgrading` when a higher level is desired. -/
theorem c9_amended (ctx : Ctx) (w : World) (priceId : Nat)
    (hnd : w.tileKeys.Nodup) : lifeStep w (advanceCore ctx w priceId) := by
  rw [advanceCore_decomp]
  refine lifeStep_presR ?_ (advanceTail_pres ctx (advTiled ctx w priceId))
  rw [advTiled, tickTilesAll]
  refine lifeStep_presL ?_ (tickFold_life ctx _ _ ?_)
  · show presLife w (tickTransportationsAll ctx (tickPriceAll ctx priceId (advStage2 ctx w)))
    have h0 : presLife w (advStage2 ctx w) := presLife_of_tiles_eq rfl
    exact presLife_trans h0
      (presLife_trans (tickPriceAll_pres ctx priceId _) (tickTransportationsAll_pres ctx _))
  · refine tickTilesOrder_keys_nodup ctx _ ?_
    rw [advPriced, tickTransportationsAll_tileKeys, tickPriceAll_tileKeys]
    exact hnd

/-- A construction site whose owner already queued two levels: status
`building`, level 0, desired level 2. -/
def c9Building : Building :=
  { type := 0
    status := BStatus.building
    level := 0
    desiredLevel := 2
    capacity := 1
    priority := 0
    stockpileCapacity := 1
    electrification := 0
    resources := []
    resourceImports := none
    warehouseAutopilot := false
    sellResources := []
    availableResources := []
    marketClearAfterUpdate := false }

/-- A world holding only that construction site. -/
def c9World : World :=
  { emptyWorld with
      tiles := fun y => if y = 0 then some c9Building else none
      tileKeys := [0] }

/-- C9, counterexample: the claim's transition set is violated. A
building still under construction (`status = building`) whose desired
level exceeds its level is forced straight to `upgrading` by one tick
(Update.ts:257-258) — a Building→Upgrading edge, neither
Building→Completed nor part of Completed→Upgrading→Completed. -/
theorem c9_counterexample :
    (c9World.tiles 0).map Building.status = some BStatus.building ∧
    ((advanceCore baseCtx c9World 0).tiles 0).map Building.status =
      some BStatus.upgrading := by
  constructor
  · rfl
  · have horder : tickTilesOrder baseCtx (advPriced baseCtx c9World 0) = [(0, c9Building)] := by
      rw [tickTilesOrder]
      have hb : buildingTiles (advPriced baseCtx c9World 0) = [(0, c9Building)] := rfl
      rw [hb, List.mergeSort_singleton]
    rw [advanceCore_decomp]
    dsimp only
    simp only [advTiled, tickTilesAll]
    rw [horder]
    rfl

/-- C9, witness: the amended transition relation at the concrete world —
the tick above is a legal `lifeStep`. -/
theorem c9_witness :
    c9World.tileKeys.Nodup ∧ lifeStep c9World (advanceCore baseCtx c9World 0) :=
  ⟨by decide, c9_amended baseCtx c9World 0 (by decide)⟩

end CivIdle
